import Mathlib

/-!
# PIR-to-Python code converter

A shallow embedding of `paddle/cinn/hlir/dialect/operator/transforms/pir_to_py_code_converter.cc`
and theorems about it.  String streams are modelled by explicit string passing, C++ loops by
folds (or by structural recursion where the loop body recurses into the IR), and the IR objects
the converter reads (`pir::Operation`, `pir::Block`, `pir::Value`, `pir::Attribute`, `pir::Type`)
by inductive types holding exactly the fields the converter reads.
-/

namespace PirToPy

/-! ## Text primitives of the C++ standard library -/

/-- The text `std::to_string` yields for an unsigned integer: its decimal digits. -/
def to_string (n : Nat) : String := Nat.repr n

/-- The text `std::to_string` and `operator<<` yield for a signed integer: decimal digits, with
a leading minus sign when negative. -/
def to_string_int : Int → String
  | Int.ofNat m => to_string m
  | Int.negSucc m => "-" ++ to_string (m + 1)

/-- The delimiter and escape character of `std::quoted`: the double quote (code 34) and the
backslash (code 92). -/
def quoted.delim : Char := Char.ofNat 34

/-- The escape character of `std::quoted`. -/
def quoted.escape : Char := Char.ofNat 92

/-- The body written by `std::quoted`: every delimiter and every escape character is preceded
by the escape character. -/
def quoted.body : List Char → List Char
  | [] => []
  | c :: cs =>
    if c = quoted.delim ∨ c = quoted.escape then quoted.escape :: c :: quoted.body cs
    else c :: quoted.body cs

/-- The text `ss << std::quoted(s)` appends. -/
def quoted (s : String) : String :=
  String.mk (quoted.delim :: (quoted.body s.data ++ [quoted.delim]))

/-- The loop `for (i = 0; i < n; ++i) { if (i > 0) ss << sep; ss << f(x_i); }` run on the
stream content `ss`; the state is the stream and the counter `i`. -/
def StreamJoin {α : Type} (sep : String) (f : α → String) (xs : List α) (ss : String) : String :=
  (xs.foldl (fun (st : String × Nat) x =>
    ((if st.2 > 0 then st.1 ++ sep else st.1) ++ f x, st.2 + 1)) (ss, 0)).1

/-- Conversion of a 64-bit value to `int` (two's complement wrap to 32 bits), as done by
`common::vectorize<int>`. -/
def toInt32 (x : Int) : Int := (x + 2 ^ 31) % 2 ^ 32 - 2 ^ 31

/-! ## Indented strings -/

/-- `IString`: a literal line, or an indentation of an `IString`. -/
inductive IString where
  | str (s : String)
  | cons (istr : IString)
  deriving DecidableEq, Repr

/-- `Indent(const IString&)`. -/
def Indent (istr : IString) : IString := IString.cons istr

abbrev IStrings := List IString

/-- `OpPyCode`: the definitions an operation needs and its call expression. -/
structure OpPyCode where
  defines : IStrings
  op_expr : String
  deriving DecidableEq, Repr

def kDefaultIndentSize : Nat := 2

/-- `GetAutoIncrementalId`: returns the current value of the process-wide counter and the
counter after the post-increment (64-bit two's complement). -/
def GetAutoIncrementalId (seq_no : Int) : Int × Int :=
  (seq_no, (seq_no + 1 + 2 ^ 63) % 2 ^ 64 - 2 ^ 63)

/-! ## The IR as read by the converter -/

/-- `pir::Type`, classified as `GetTypeAdtTypeId` does.  An unclassified type carries the text
`pir::IrPrinter::PrintType` prints for it; tensor dimensions are the 64-bit `dims()`. -/
inductive PirType where
  | VectorType (elems : List PirType)
  | DenseTensorType (dims : List Int) (dtype : PirType)
  | BFloat16Type
  | Float16Type
  | Float32Type
  | Float64Type
  | Int8Type
  | UInt8Type
  | Int16Type
  | Int32Type
  | Int64Type
  | IndexType
  | BoolType
  | Complex64Type
  | Complex128Type
  | UnclassifiedType (printed : String)
  deriving Repr

namespace PirType

mutual
/-- Structural equality test on types. -/
def eqb : PirType → PirType → Bool
  | VectorType as, b => match b with
    | VectorType bs => eqbList as bs
    | _ => false
  | DenseTensorType d1 t1, b => match b with
    | DenseTensorType d2 t2 => decide (d1 = d2) && eqb t1 t2
    | _ => false
  | BFloat16Type, b => match b with
    | BFloat16Type => true
    | _ => false
  | Float16Type, b => match b with
    | Float16Type => true
    | _ => false
  | Float32Type, b => match b with
    | Float32Type => true
    | _ => false
  | Float64Type, b => match b with
    | Float64Type => true
    | _ => false
  | Int8Type, b => match b with
    | Int8Type => true
    | _ => false
  | UInt8Type, b => match b with
    | UInt8Type => true
    | _ => false
  | Int16Type, b => match b with
    | Int16Type => true
    | _ => false
  | Int32Type, b => match b with
    | Int32Type => true
    | _ => false
  | Int64Type, b => match b with
    | Int64Type => true
    | _ => false
  | IndexType, b => match b with
    | IndexType => true
    | _ => false
  | BoolType, b => match b with
    | BoolType => true
    | _ => false
  | Complex64Type, b => match b with
    | Complex64Type => true
    | _ => false
  | Complex128Type, b => match b with
    | Complex128Type => true
    | _ => false
  | UnclassifiedType p, b => match b with
    | UnclassifiedType q => decide (p = q)
    | _ => false
/-- Structural equality test on lists of types. -/
def eqbList : List PirType → List PirType → Bool
  | [], bs => match bs with
    | [] => true
    | _ :: _ => false
  | a :: as, bs => match bs with
    | [] => false
    | b :: bs => eqb a b && eqbList as bs
end

mutual
theorem eq_of_eqb : ∀ (a b : PirType), eqb a b = true → a = b
  | VectorType as, b, h => by
    cases b <;> simp only [eqb, Bool.false_eq_true] at h
    rw [eq_of_eqbList _ _ h]
  | DenseTensorType d1 t1, b, h => by
    cases b <;> simp only [eqb, Bool.false_eq_true, Bool.and_eq_true, decide_eq_true_eq] at h
    rw [h.1, eq_of_eqb _ _ h.2]
  | BFloat16Type, b, h => by cases b <;> first | rfl | simp only [eqb, Bool.false_eq_true] at h
  | Float16Type, b, h => by cases b <;> first | rfl | simp only [eqb, Bool.false_eq_true] at h
  | Float32Type, b, h => by cases b <;> first | rfl | simp only [eqb, Bool.false_eq_true] at h
  | Float64Type, b, h => by cases b <;> first | rfl | simp only [eqb, Bool.false_eq_true] at h
  | Int8Type, b, h => by cases b <;> first | rfl | simp only [eqb, Bool.false_eq_true] at h
  | UInt8Type, b, h => by cases b <;> first | rfl | simp only [eqb, Bool.false_eq_true] at h
  | Int16Type, b, h => by cases b <;> first | rfl | simp only [eqb, Bool.false_eq_true] at h
  | Int32Type, b, h => by cases b <;> first | rfl | simp only [eqb, Bool.false_eq_true] at h
  | Int64Type, b, h => by cases b <;> first | rfl | simp only [eqb, Bool.false_eq_true] at h
  | IndexType, b, h => by cases b <;> first | rfl | simp only [eqb, Bool.false_eq_true] at h
  | BoolType, b, h => by cases b <;> first | rfl | simp only [eqb, Bool.false_eq_true] at h
  | Complex64Type, b, h => by cases b <;> first | rfl | simp only [eqb, Bool.false_eq_true] at h
  | Complex128Type, b, h => by cases b <;> first | rfl | simp only [eqb, Bool.false_eq_true] at h
  | UnclassifiedType p, b, h => by
    cases b <;> simp only [eqb, Bool.false_eq_true, decide_eq_true_eq] at h
    rw [h]
theorem eq_of_eqbList : ∀ (as bs : List PirType), eqbList as bs = true → as = bs
  | [], bs, h => by cases bs <;> first | rfl | simp only [eqbList, Bool.false_eq_true] at h
  | a :: as, bs, h => by
    cases bs <;> simp only [eqbList, Bool.false_eq_true, Bool.and_eq_true] at h
    rw [eq_of_eqb _ _ h.1, eq_of_eqbList _ _ h.2]
end

mutual
theorem eqb_self : ∀ (a : PirType), eqb a a = true
  | VectorType as => by simp only [eqb, eqbList_self as]
  | DenseTensorType d1 t1 => by simp only [eqb, eqb_self t1, decide_True, Bool.and_self]
  | BFloat16Type => by simp only [eqb]
  | Float16Type => by simp only [eqb]
  | Float32Type => by simp only [eqb]
  | Float64Type => by simp only [eqb]
  | Int8Type => by simp only [eqb]
  | UInt8Type => by simp only [eqb]
  | Int16Type => by simp only [eqb]
  | Int32Type => by simp only [eqb]
  | Int64Type => by simp only [eqb]
  | IndexType => by simp only [eqb]
  | BoolType => by simp only [eqb]
  | Complex64Type => by simp only [eqb]
  | Complex128Type => by simp only [eqb]
  | UnclassifiedType p => by simp only [eqb, decide_True]
theorem eqbList_self : ∀ (as : List PirType), eqbList as as = true
  | [] => by simp only [eqbList]
  | a :: as => by simp only [eqbList, eqb_self a, eqbList_self as, Bool.and_self]
end

instance : DecidableEq PirType := fun a b =>
  if h : eqb a b = true then isTrue (eq_of_eqb a b h)
  else isFalse (fun e => h (e ▸ eqb_self a))

end PirType

/-- `phi::AllocationType`. -/
inductive AllocationType where
  | UNDEFINED | CPU | GPU | GPUPINNED | XPU | IPU | CUSTOM
  deriving DecidableEq, Repr

/-- `phi::Place`: `GetType()`, `GetDeviceType()` and `GetDeviceId()`. -/
structure Place where
  type : AllocationType
  device_type : String
  device_id : Int
  deriving DecidableEq, Repr

/-- `pir::Attribute`, classified as `GetAttrAdtTypeId` does.  Floating-point, pointer, data-type,
data-layout and type payloads carry the text `operator<<` (or `Print`) writes for them; an
unclassified attribute carries its content, which the converter does not read. -/
inductive Attribute where
  | BoolAttribute (data : Bool)
  | Complex64Attribute (real imag : String)
  | Complex128Attribute (real imag : String)
  | FloatAttribute (data : String)
  | DoubleAttribute (data : String)
  | Int32Attribute (data : Int)
  | IndexAttribute (data : Int)
  | Int64Attribute (data : Int)
  | PointerAttribute (data : String)
  | TypeAttribute (printed : String)
  | StrAttribute (data : String)
  | ArrayAttribute (elems : List Attribute)
  | TensorNameAttribute (data : String)
  | SymbolAttribute
  | KernelAttribute
  | IntArrayAttribute (data : List Int)
  | ScalarAttribute (raw : String) (type : PirType)
  | DataTypeAttribute (printed : String)
  | PlaceAttribute (place : Place)
  | DataLayoutAttribute (printed : String)
  | GroupInfoAttribute
  | CINNKernelInfoAttribute
  | UnclassifiedAttribute (content : String)
  deriving Repr

/-- The declarations of the IR library the converter reads and that are outside this file's
source: the static `name()` of every attribute and type class, and `phi::AllocationTypeStr`. -/
structure Decls where
  BoolAttribute : String
  Complex64Attribute : String
  Complex128Attribute : String
  FloatAttribute : String
  DoubleAttribute : String
  Int32Attribute : String
  IndexAttribute : String
  Int64Attribute : String
  PointerAttribute : String
  TypeAttribute : String
  StrAttribute : String
  ArrayAttribute : String
  TensorNameAttribute : String
  SymbolAttribute : String
  KernelAttribute : String
  IntArrayAttribute : String
  ScalarAttribute : String
  DataTypeAttribute : String
  PlaceAttribute : String
  DataLayoutAttribute : String
  GroupInfoAttribute : String
  CINNKernelInfoAttribute : String
  VectorType : String
  DenseTensorType : String
  BFloat16Type : String
  Float16Type : String
  Float32Type : String
  Float64Type : String
  Int8Type : String
  UInt8Type : String
  Int16Type : String
  Int32Type : String
  Int64Type : String
  IndexType : String
  BoolType : String
  Complex64Type : String
  Complex128Type : String
  AllocationTypeStr : AllocationType → String

/-- The fields of a `pir::Operation` that are reachable from one of its result values:
`name()`, `id()` and the types of its results (`num_results()` is their number). -/
structure OpHead where
  name : String
  id : Nat
  result_types : List PirType
  deriving DecidableEq, Repr

/-- `pir::Value`: the `index`-th result of its `defining_op()`, or a value without defining
operation (a block argument), identified by its `std::hash`. -/
inductive Value where
  | OpResult (defining_op : OpHead) (index : Nat)
  | BlockArgument (hash : Nat) (type : PirType)
  deriving DecidableEq, Repr

mutual
/-- `pir::Operation`: head, operand sources, attribute map in iteration order, regions (each a
list of blocks), and whether it `isa<pir::YieldOp>()`. -/
inductive Operation where
  | mk (head : OpHead) (operands : List Value) (attributes : List (String × Attribute))
      (regions : List (List Block)) (isa_YieldOp : Bool)
/-- `pir::Block`: its operations, `args()` and `kwargs()` in iteration order. -/
inductive Block where
  | mk (ops : List Operation) (args : List Value) (kwargs : List (String × Value))
end

abbrev Region := List Block

/-- `pir::Program`: owns the module operation. -/
structure Program where
  module_op : Operation

namespace OpHead

def num_results (op : OpHead) : Nat := op.result_types.length

/-- `op->result(i)`. -/
def result (op : OpHead) (i : Nat) : Value := Value.OpResult op i

/-- All results `op->result(0)`, ..., `op->result(num_results() - 1)`. -/
def results (op : OpHead) : List Value := (List.range op.num_results).map op.result

end OpHead

namespace Value

/-- `value.type()`. -/
def type : Value → PirType
  | OpResult op i => op.result_types.getD i (PirType.UnclassifiedType "")
  | BlockArgument _ t => t

end Value

namespace Operation

def head : Operation → OpHead
  | mk h _ _ _ _ => h

def name (op : Operation) : String := op.head.name

def id (op : Operation) : Nat := op.head.id

def operands : Operation → List Value
  | mk _ xs _ _ _ => xs

def attributes : Operation → List (String × Attribute)
  | mk _ _ attrs _ _ => attrs

def regions : Operation → List (List Block)
  | mk _ _ _ rs _ => rs

def isa_YieldOp : Operation → Bool
  | mk _ _ _ _ y => y

def num_results (op : Operation) : Nat := op.head.num_results

def num_operands (op : Operation) : Nat := op.operands.length

def num_regions (op : Operation) : Nat := op.regions.length

def result (op : Operation) (i : Nat) : Value := op.head.result i

def results (op : Operation) : List Value := op.head.results

end Operation

namespace Block

def ops : Block → List Operation
  | mk os _ _ => os

def args : Block → List Value
  | mk _ as _ => as

def kwargs : Block → List (String × Value)
  | mk _ _ kw => kw

end Block

/-! ## The converter -/

/-- `PirToPyCodeConverterHelper`: the program, the indent size and the sequence number taken
from the process-wide counter when the helper is constructed. -/
structure PirToPyCodeConverterHelper where
  program : Program
  indent_size : Nat
  seq_no : Int

/-- The constructor of `PirToPyCodeConverterHelper`, run on the current value of the
process-wide counter; returns the helper and the counter after construction. -/
def PirToPyCodeConverterHelper.new (program : Program) (counter : Int) :
    PirToPyCodeConverterHelper × Int :=
  (PirToPyCodeConverterHelper.mk program kDefaultIndentSize (GetAutoIncrementalId counter).1,
    (GetAutoIncrementalId counter).2)

/-- `IsValidVarChar` of `ConvertOpNameToPythonValidVarName`. -/
def IsValidVarChar (ch : Char) : Bool :=
  if ch ≥ 'a' ∧ ch ≤ 'z' then true
  else if ch ≥ 'A' ∧ ch ≤ 'Z' then true
  else if ch ≥ '0' ∧ ch ≤ '9' then true
  else if ch = '_' then true
  else false

/-- The backward loop of `ConvertOpNameToPythonValidVarName`: started with `i + 1 = k`, it
returns the final `i + 1` (so `0` when the loop runs off the front with `i = -1`). -/
def ConvertOpNameToPythonValidVarName.loop (name : List Char) : Nat → Nat
  | 0 => 0
  | i + 1 =>
    if !IsValidVarChar (name.getD i ' ') then i + 1
    else ConvertOpNameToPythonValidVarName.loop name i

/-- `ConvertOpNameToPythonValidVarName`: `name.substr(i + 1)` for the `i` the loop stops at. -/
def ConvertOpNameToPythonValidVarName (name : String) : String :=
  String.mk (name.data.drop (ConvertOpNameToPythonValidVarName.loop name.data name.data.length))

/-- `ConvertOpUniqueName`. -/
def ConvertOpUniqueName (op : OpHead) : String :=
  ConvertOpNameToPythonValidVarName op.name ++ "_" ++ to_string op.id

/-- `GetResultIdx`: the first `i < num_results()` with `op->result(i) == value`, else `-1`. -/
def GetResultIdx (op : OpHead) (value : Value) : Int :=
  match (List.range op.num_results).find? (fun i => decide (op.result i = value)) with
  | some i => (i : Int)
  | none => -1

/-- `ConvertValue`. -/
def ConvertValue : Value → String
  | Value.BlockArgument hash _ => "arg_" ++ to_string hash
  | Value.OpResult op index =>
    ConvertOpUniqueName op ++ to_string_int (GetResultIdx op (Value.OpResult op index))

/-- `GetInputs`: `values` is the set of results of the block's operations; `inputs` collects
the operand sources that are not in `values` and not yet in `inputs`. -/
def GetInputs (block : Block) : List Value :=
  let values : List Value :=
    block.ops.foldl (fun values op => op.results.foldl (fun values r => r :: values) values) []
  block.ops.foldl (fun inputs op =>
    op.operands.foldl (fun inputs input =>
      if input ∈ values then inputs
      else if input ∈ inputs then inputs
      else inputs ++ [input]) inputs) []

/-- `ConvertInputsAsArgs`. -/
def ConvertInputsAsArgs (inputs : List Value) : String :=
  StreamJoin ", " ConvertValue inputs ""

/-- `ConvertFreeVarsAsArgs`. -/
def ConvertFreeVarsAsArgs (block : Block) : String :=
  ConvertInputsAsArgs (GetInputs block)

/-- `ConvertKwargsToString`. -/
def ConvertKwargsToString (block : Block) : String :=
  ConvertInputsAsArgs (block.kwargs.foldl (fun values kv => values ++ [kv.2]) [])

/-- `ConvertOperandsAsArgs`. -/
def ConvertOperandsAsArgs (op : Operation) : String :=
  StreamJoin ", " ConvertValue op.operands ""

/-- `ConvertResultAsTuple`. -/
def ConvertResultAsTuple (op : Operation) : String :=
  StreamJoin ", " ConvertValue op.results ""

/-- `PushBackIndented`. -/
def PushBackIndented (ret : IStrings) (istrings : IStrings) : IStrings :=
  istrings.foldl (fun ret istring => ret ++ [Indent istring]) ret

mutual
/-- `TypeConverter`, dispatched by `ConvertType`. -/
def ConvertType (D : Decls) : PirType → String
  | PirType.VectorType elems =>
    ConvertType.loop D elems 0 ("self." ++ D.DenseTensorType ++ "(") ++ ")"
  | PirType.DenseTensorType dims dtype =>
    StreamJoin ", " to_string_int (dims.map toInt32) ("self." ++ D.DenseTensorType ++ "(" ++ "[")
      ++ "], " ++ ConvertType D dtype ++ ")"
  | PirType.BFloat16Type => "self." ++ D.BFloat16Type ++ "()"
  | PirType.Float16Type => "self." ++ D.Float16Type ++ "()"
  | PirType.Float32Type => "self." ++ D.Float32Type ++ "()"
  | PirType.Float64Type => "self." ++ D.Float64Type ++ "()"
  | PirType.Int8Type => "self." ++ D.Int8Type ++ "()"
  | PirType.UInt8Type => "self." ++ D.UInt8Type ++ "()"
  | PirType.Int16Type => "self." ++ D.Int16Type ++ "()"
  | PirType.Int32Type => "self." ++ D.Int32Type ++ "()"
  | PirType.Int64Type => "self." ++ D.Int64Type ++ "()"
  | PirType.IndexType => "self." ++ D.IndexType ++ "()"
  | PirType.BoolType => "self." ++ D.BoolType ++ "()"
  | PirType.Complex64Type => "self." ++ D.Complex64Type ++ "()"
  | PirType.Complex128Type => "self." ++ D.Complex128Type ++ "()"
  | PirType.UnclassifiedType printed => "self.UnclassifiedType(" ++ quoted printed ++ ")"
/-- The loop over the elements of a vector type, on the stream `ss` with counter `i`. -/
def ConvertType.loop (D : Decls) : List PirType → Nat → String → String
  | [], _, ss => ss
  | t :: ts, i, ss =>
    ConvertType.loop D ts (i + 1) ((if i > 0 then ss ++ ", " else ss) ++ ConvertType D t)
end

mutual
/-- `AttrConverter`, dispatched by `ConvertAttr`. -/
def ConvertAttr (D : Decls) : Attribute → String
  | Attribute.BoolAttribute data =>
    "self." ++ D.BoolAttribute ++ "(" ++ (if data then "True" else "False") ++ ")"
  | Attribute.Complex64Attribute real imag =>
    "self." ++ D.Complex64Attribute ++ "(\"" ++ real ++ "\", \"" ++ imag ++ "\")"
  | Attribute.Complex128Attribute real imag =>
    "self." ++ D.Complex128Attribute ++ "(\"" ++ real ++ "\", \"" ++ imag ++ "\")"
  | Attribute.FloatAttribute data => "self." ++ D.FloatAttribute ++ "(\"" ++ data ++ "\")"
  | Attribute.DoubleAttribute data => "self." ++ D.DoubleAttribute ++ "(\"" ++ data ++ "\")"
  | Attribute.Int32Attribute data =>
    "self." ++ D.Int32Attribute ++ "(" ++ to_string_int data ++ ")"
  | Attribute.IndexAttribute data =>
    "self." ++ D.IndexAttribute ++ "(" ++ to_string_int data ++ ")"
  | Attribute.Int64Attribute data =>
    "self." ++ D.Int64Attribute ++ "(" ++ to_string_int data ++ ")"
  | Attribute.PointerAttribute data => "self." ++ D.PointerAttribute ++ "(\"" ++ data ++ "\")"
  | Attribute.TypeAttribute printed => "self." ++ D.TypeAttribute ++ "(\"" ++ printed ++ "\")"
  | Attribute.StrAttribute data => "self." ++ D.StrAttribute ++ "(" ++ quoted data ++ ")"
  | Attribute.ArrayAttribute elems =>
    ConvertAttr.loop D elems 0 ("self." ++ D.ArrayAttribute ++ "(") ++ ")"
  | Attribute.TensorNameAttribute data =>
    "self." ++ D.TensorNameAttribute ++ "(" ++ quoted data ++ ")"
  | Attribute.SymbolAttribute => "self." ++ D.SymbolAttribute ++ "()"
  | Attribute.KernelAttribute => "self." ++ D.KernelAttribute ++ "()"
  | Attribute.IntArrayAttribute data =>
    StreamJoin ", " to_string_int data ("self." ++ D.IntArrayAttribute ++ "(") ++ ")"
  | Attribute.ScalarAttribute raw type =>
    "self." ++ D.ScalarAttribute ++ "(" ++ quoted raw ++ ", " ++ ConvertType D type ++ ")"
  | Attribute.DataTypeAttribute printed =>
    "self." ++ D.DataTypeAttribute ++ "(\"" ++ printed ++ "\")"
  | Attribute.PlaceAttribute place =>
    "self." ++ D.PlaceAttribute ++ "("
      ++ (if place.type = AllocationType.CUSTOM then quoted place.device_type
          else quoted (D.AllocationTypeStr place.type))
      ++ (if place.type = AllocationType.GPUPINNED ∨ place.type = AllocationType.CPU then ""
          else ", " ++ to_string_int place.device_id)
      ++ ")"
  | Attribute.DataLayoutAttribute printed =>
    "self." ++ D.DataLayoutAttribute ++ "(\"" ++ printed ++ "\")"
  | Attribute.GroupInfoAttribute => "self." ++ D.GroupInfoAttribute ++ "()"
  | Attribute.CINNKernelInfoAttribute => "self." ++ D.CINNKernelInfoAttribute ++ "()"
  | Attribute.UnclassifiedAttribute _ => "self.UnclassifiedAttribute()"
/-- The loop over the elements of an array attribute, on the stream `ss` with counter `i`. -/
def ConvertAttr.loop (D : Decls) : List Attribute → Nat → String → String
  | [], _, ss => ss
  | a :: as, i, ss =>
    ConvertAttr.loop D as (i + 1) ((if i > 0 then ss ++ ", " else ss) ++ ConvertAttr D a)
end

/-- `VisitAttr`: calls `DoEachAttr` on every attribute but `op_callstack` and
`sym_shape_str`; `σ` is the state the callback captures by reference. -/
def VisitAttr {σ : Type} (op : Operation) (DoEachAttr : σ → String → Attribute → σ)
    (init : σ) : σ :=
  op.attributes.foldl (fun st kv =>
    if kv.1 = "op_callstack" then st
    else if kv.1 = "sym_shape_str" then st
    else DoEachAttr st kv.1 kv.2) init

/-- `ConvertAttrsAsArgs`: the callback state is the stream `ss` and the counter `i`. -/
def ConvertAttrsAsArgs (D : Decls) (op : Operation) : String :=
  (VisitAttr op (fun (st : String × Nat) attr_name attr =>
    ((if st.2 > 0 then st.1 ++ ", " else st.1) ++ (attr_name ++ "=" ++ ConvertAttr D attr),
      st.2 + 1)) ("", 0)).1

/-- `ConvertInputTypes`. -/
def ConvertInputTypes (D : Decls) (op : Operation) : String :=
  StreamJoin ", " (fun (v : Value) => ConvertType D v.type) op.operands "[" ++ "]"

/-- `ConvertOutputTypes`. -/
def ConvertOutputTypes (D : Decls) (op : Operation) : String :=
  StreamJoin ", " (fun (v : Value) => ConvertType D v.type) op.results "[" ++ "]"

/-- `ConvertPostionalArgsAsQuotedString` of `ConvertBlockSignatureAsArgs`. -/
def ConvertPostionalArgsAsQuotedString (block : Block) : String :=
  StreamJoin ", " (fun value => quoted (ConvertValue value)) block.args ""

/-- `ConvertKeywordArgsAsQuotedString` of `ConvertBlockSignatureAsArgs`. -/
def ConvertKeywordArgsAsQuotedString (block : Block) : String :=
  StreamJoin ", " (fun (kv : String × Value) => quoted kv.1 ++ ": " ++ quoted (ConvertValue kv.2))
    block.kwargs ""

/-- `ConvertBlockSignatureAsArgs`. -/
def ConvertBlockSignatureAsArgs (op : Operation) : String :=
  if op.num_regions = 0 then ""
  else
    let ss := "block_positional_arg_names=["
    let ss := StreamJoin "," (fun (region : Region) =>
      "[" ++ StreamJoin "," (fun block =>
        "[" ++ ConvertPostionalArgsAsQuotedString block ++ "]") region "" ++ "]") op.regions ss
    let ss := ss ++ "], "
    let ss := ss ++ "block_keyword_arg_names=["
    let ss := StreamJoin "," (fun (region : Region) =>
      "[" ++ StreamJoin "," (fun block =>
        "\x7b" ++ ConvertKeywordArgsAsQuotedString block ++ "\x7d") region "" ++ "]") op.regions ss
    ss ++ "]"

/-- `DefineOp`. -/
def DefineOp (D : Decls) (op : Operation) : String :=
  let id := to_string op.id
  let input_types_str := ConvertInputTypes D op
  let output_types_str := ConvertOutputTypes D op
  let attrs_as_args := ConvertAttrsAsArgs D op
  let block_signature := ConvertBlockSignatureAsArgs op
  let ss := "self." ++ ConvertOpUniqueName op.head ++ " = self.Op(" ++ quoted op.name ++ ", "
    ++ id ++ ", " ++ "input_types=" ++ input_types_str ++ ", output_types=" ++ output_types_str
    ++ ", attrs=dict(" ++ attrs_as_args ++ ")"
  let ss := if block_signature ≠ "" then ss ++ ", " ++ block_signature else ss
  ss ++ ")"

/-- `IsReturnOp` of `ConvertBlock`. -/
def IsReturnOp (op : Operation) : Bool :=
  if op.isa_YieldOp then true else false

/-- The tail of `ConvertBlock` after its loop over the operations: builds the two function
definitions and the tuple expression from the loop results. -/
def ConvertBlock.finish (block : Block) (func_op_name : String) (all_defines : IStrings)
    (block_body : IStrings) : OpPyCode :=
  let ret_lambda_name := "ret_lambda"
  let GetRetLambda : IStrings :=
    let args_str := ConvertInputsAsArgs block.args
    let kwargs_str := ConvertKwargsToString block
    let ret_lambda_declare := IString.str ("def " ++ ret_lambda_name ++ "(" ++ args_str
      ++ (if kwargs_str = "" then "" else ", *, ") ++ kwargs_str ++ "):")
    PushBackIndented [ret_lambda_declare] block_body
  let free_vars_as_args := ConvertFreeVarsAsArgs block
  let func : IStrings :=
    let declare := IString.str ("def " ++ func_op_name ++ "(self, call"
      ++ (if free_vars_as_args = "" then "" else ", ") ++ free_vars_as_args ++ "):")
    let block_func := PushBackIndented [declare] GetRetLambda
    let block_func := block_func ++ [Indent (IString.str ("return " ++ ret_lambda_name))]
    block_func ++ [Indent (IString.str "")]
  let all_defines := all_defines ++ func
  let block_lambda_and_free_vars := "(self." ++ func_op_name
    ++ (if free_vars_as_args = "" then "," else ", ") ++ free_vars_as_args ++ ")"
  OpPyCode.mk all_defines block_lambda_and_free_vars

/-- The tail of `ConvertOpCall` after `ConvertRegions` has returned `defines` and `regions`. -/
def ConvertOpCall.finish (op : Operation) (defines : IStrings) (regions : String) : OpPyCode :=
  let operands_as_args := ConvertOperandsAsArgs op
  let results_as_tuple_str := ConvertResultAsTuple op
  let ss := ""
  let ss := if results_as_tuple_str ≠ "" then ss ++ results_as_tuple_str ++ ", = " else ss
  let ss := ss ++ "call(self." ++ ConvertOpUniqueName op.head
  let ss := if operands_as_args ≠ "" then ss ++ ", " ++ operands_as_args else ss
  let ss := if regions ≠ "[]" then ss ++ ", blocks=" ++ regions else ss
  let ss := ss ++ ")"
  OpPyCode.mk defines ss

mutual
/-- `ConvertOpCall`. -/
def ConvertOpCall : Operation → OpPyCode
  | Operation.mk head operands attributes regions y =>
    let r := ConvertRegions.loop (ConvertOpUniqueName head) regions 0 ([], "[")
    ConvertOpCall.finish (Operation.mk head operands attributes regions y) r.1 (r.2 ++ "]")
/-- The loop of `ConvertRegions` over the regions of the operation: the state is
`all_defines` and the stream `ss`, `i` is the region counter. -/
def ConvertRegions.loop (op_var_name : String) :
    List (List Block) → Nat → IStrings × String → IStrings × String
  | [], _, st => st
  | region :: regions, i, st =>
    let ss := if i > 0 then st.2 ++ "," else st.2
    let ss := ss ++ "["
    let r := ConvertRegions.inner op_var_name i region 0 (st.1, ss)
    ConvertRegions.loop op_var_name regions (i + 1) (r.1, r.2 ++ "]")
/-- The inner loop of `ConvertRegions` over the blocks of region `i`, `j` is the block
counter. -/
def ConvertRegions.inner (op_var_name : String) (i : Nat) :
    List Block → Nat → IStrings × String → IStrings × String
  | [], _, st => st
  | block :: blocks, j, st =>
    let block_name := op_var_name ++ "_block" ++ to_string i ++ to_string j
    let code := ConvertBlock block block_name
    let all_defines := st.1 ++ code.defines
    let ss := if j > 0 then st.2 ++ "," else st.2
    let ss := ss ++ code.op_expr
    ConvertRegions.inner op_var_name i blocks (j + 1) (all_defines, ss)
/-- `ConvertBlock`. -/
def ConvertBlock : Block → String → OpPyCode
  | Block.mk ops args kwargs, func_op_name =>
    let r := ConvertBlock.loop ops ([], [])
    ConvertBlock.finish (Block.mk ops args kwargs) func_op_name r.1 r.2
/-- The loop of `ConvertBlock` over the operations of the block: the state is `all_defines`
and `block_body`. -/
def ConvertBlock.loop : List Operation → IStrings × IStrings → IStrings × IStrings
  | [], st => st
  | op :: ops, st =>
    let code := ConvertOpCall op
    let all_defines := st.1 ++ code.defines
    let block_body := st.2 ++ [if IsReturnOp op then IString.str ("return " ++ code.op_expr)
      else IString.str code.op_expr]
    ConvertBlock.loop ops (all_defines, block_body)
end

/-- `ConvertRegions`. -/
def ConvertRegions (op : Operation) : OpPyCode :=
  let r := ConvertRegions.loop (ConvertOpUniqueName op.head) op.regions 0 ([], "[")
  OpPyCode.mk r.1 (r.2 ++ "]")

mutual
/-- Modelled from the spec: `pir::Operation::Walk` is declared outside this file's source;
the spec describes it as a full pre-order traversal of the nodes reachable from the
operation, nested regions and blocks included.  Returns the operations in visiting order. -/
def Walk : Operation → List Operation
  | Operation.mk head operands attributes regions y =>
    Operation.mk head operands attributes regions y :: Walk.regions regions
/-- The operations of a list of regions, in pre-order. -/
def Walk.regions : List (List Block) → List Operation
  | [] => []
  | region :: regions => Walk.blocks region ++ Walk.regions regions
/-- The operations of a list of blocks, in pre-order. -/
def Walk.blocks : List Block → List Operation
  | [] => []
  | Block.mk ops _ _ :: blocks => Walk.ops ops ++ Walk.blocks blocks
/-- The operations of a list of operations, in pre-order. -/
def Walk.ops : List Operation → List Operation
  | [] => []
  | op :: ops => Walk op ++ Walk.ops ops
end

/-- `DefineInit`. -/
def DefineInit (D : Decls) (module : Operation) : IStrings :=
  let def_init := [IString.str "def __init__(self):"]
  let def_init := (Walk module).foldl (fun def_init op =>
    def_init ++ [Indent (IString.str (DefineOp D op))]) def_init
  def_init ++ [Indent (IString.str "")]

/-- `ConvertToCallMethod`. -/
def ConvertToCallMethod (code : OpPyCode) : IStrings :=
  let ret := code.defines
  let ret := ret ++ [IString.str "def __call__(self, call, *args, **kwargs):"]
  let ret := ret ++ [Indent (IString.str "self.SetArgs(args)")]
  let ret := ret ++ [Indent (IString.str "self.SetKeywordArgs(kwargs)")]
  ret ++ [Indent (IString.str ("return " ++ code.op_expr))]

/-- `ConvertModuleOp`. -/
def ConvertModuleOp (module : Operation) : IStrings :=
  ConvertToCallMethod (ConvertOpCall module)

namespace PirToPyCodeConverterHelper

/-- `GetPyClassName`. -/
def GetPyClassName (self : PirToPyCodeConverterHelper) : String :=
  "PirProgram_" ++ to_string_int self.seq_no

/-- `ConvertMethodsToPyClass`. -/
def ConvertMethodsToPyClass (self : PirToPyCodeConverterHelper) (body : IStrings) : IStrings :=
  let ret := [IString.str ("class " ++ self.GetPyClassName ++ ":")]
  PushBackIndented ret body

/-- `ConvertIStringToString`. -/
def ConvertIStringToString (self : PirToPyCodeConverterHelper) : IString → String
  | IString.str str => str
  | IString.cons istr =>
    (List.range self.indent_size).foldl (fun ret _ => ret ++ " ") ""
      ++ ConvertIStringToString self istr

/-- `ConvertIStringsToString`: every line is followed by two `std::endl`. -/
def ConvertIStringsToString (self : PirToPyCodeConverterHelper) (istrings : IStrings) : String :=
  istrings.foldl (fun ss istring => ss ++ self.ConvertIStringToString istring ++ "\n" ++ "\n") ""

/-- The fragments `Convert` renders: the class header and the indented body. -/
def ConvertToIStrings (D : Decls) (self : PirToPyCodeConverterHelper) : IStrings :=
  self.ConvertMethodsToPyClass
    (let all_defines := DefineInit D self.program.module_op
     let defines := ConvertModuleOp self.program.module_op
     all_defines ++ defines)

/-- `Convert`. -/
def Convert (D : Decls) (self : PirToPyCodeConverterHelper) : String :=
  self.ConvertIStringsToString (ConvertToIStrings D self)

end PirToPyCodeConverterHelper

/-! ## The emission sink -/

/-- The state of the process that `SaveIfFlagEnabled` reads and writes: the counter of
`GetAutoIncrementalId`, the paths whose `once_flag` in `once_flags` has been passed, and the
content of every file (`none` for a file that does not exist). -/
structure ProcessState where
  seq_no : Int
  once_flags : List String
  files : String → Option String

/-- The state at process start: the counter is at its initial value 0 and no `once_flag`
has been passed. -/
def ProcessState.init (files : String → Option String) : ProcessState :=
  ProcessState.mk 0 [] files

/-- `SaveIfFlagEnabled`, run under the lock.  `can_open` tells whether `std::ofstream::open`
succeeds on a path: opening with `trunc` then leaves an empty file, opening with `app` gives
a stream that appends (to the empty text when the file did not exist). -/
def SaveIfFlagEnabled (D : Decls) (FLAGS_logging_pir_py_code_dir : String)
    (can_open : String → Bool) (tag : String) (program : Program) (st : ProcessState) :
    ProcessState :=
  if FLAGS_logging_pir_py_code_dir = "" then st
  else
    let file_path := FLAGS_logging_pir_py_code_dir ++ "/" ++ tag ++ ".py"
    let helper := PirToPyCodeConverterHelper.new program st.seq_no
    let content := helper.1.Convert D
    let st := ProcessState.mk helper.2 st.once_flags st.files
    let st :=
      if file_path ∈ st.once_flags then st
      else ProcessState.mk st.seq_no (file_path :: st.once_flags)
        (if can_open file_path then fun p => if p = file_path then some "" else st.files p
         else st.files)
    if !can_open file_path then st
    else ProcessState.mk st.seq_no st.once_flags
      (fun p => if p = file_path then some ((st.files p).getD "" ++ content ++ "\n")
        else st.files p)

/-! ## Specification-side definitions and example inputs -/

/-- The value of a decimal digit character. -/
def digitVal (c : Char) : Nat := c.toNat - 48

/-- The number a list of decimal digits denotes. -/
def decodeDecimal (cs : List Char) : Nat := cs.foldl (fun a c => 10 * a + digitVal c) 0

/-- The separated continuation `sep ++ a₁ ++ sep ++ a₂ ++ ...` of a joined list. -/
def joinTail (sep : String) : List String → String
  | [] => ""
  | a :: as => sep ++ a ++ joinTail sep as

/-- The operand sources of the direct member operations of a block, in scan order. -/
def Block.operandScan (block : Block) : List Value :=
  block.ops.flatMap Operation.operands

/-- The results of the direct member operations of a block. -/
def Block.definedValues (block : Block) : List Value :=
  block.ops.flatMap Operation.results

/-- Follows the spec's words: the nodes inside a block, those nested in the regions of its
nodes transitively included, in pre-order. -/
def Block.nodesInside (block : Block) : List Operation :=
  Walk.ops block.ops

/-- Keeps the first occurrence of every element. -/
def keepFirst {α : Type} [DecidableEq α] : List α → List α
  | [] => []
  | x :: xs => x :: (keepFirst xs).filter (fun y => decide (y ≠ x))

/-- Follows the spec's words: the operands used by any node inside the block, nested regions
transitively included, whose producing node is not inside the block, without duplicates, in
first-use order. -/
def FreeVariablesSpec (block : Block) : List Value :=
  keepFirst ((block.nodesInside.flatMap Operation.operands).filter
    (fun v => decide (v ∉ block.nodesInside.flatMap Operation.results)))

/-- The scan of `GetInputs` over a list of operand sources, `P` being membership in the set of
values defined in the block. -/
def scanInputs (P : Value → Prop) [DecidablePred P] (xs : List Value) : List Value :=
  xs.foldl (fun inputs input =>
    if P input then inputs else if input ∈ inputs then inputs else inputs ++ [input]) []

/-- A value produced by a `pd_op.full` operation outside the example block. -/
def C1.outer_value : Value :=
  Value.OpResult (OpHead.mk "pd_op.full" 2 [PirType.Float32Type]) 0

/-- An operation that uses `C1.outer_value`. -/
def C1.use_op : Operation :=
  Operation.mk (OpHead.mk "pd_op.relu" 5 [PirType.Float32Type]) [C1.outer_value] [] [] false

/-- An operation without operands whose region holds `C1.use_op`. -/
def C1.inner_op : Operation :=
  Operation.mk (OpHead.mk "pd_op.if" 4 []) [] [] [[Block.mk [C1.use_op] [] []]] false

/-- A block whose only direct member is `C1.inner_op`. -/
def C1.block : Block := Block.mk [C1.inner_op] [] []

/-- An operation named `x_1` with numeric identity 2. -/
def C2.op_a : Operation := Operation.mk (OpHead.mk "x_1" 2 []) [] [] [] false

/-- An operation named `x` with numeric identity 12. -/
def C2.op_b : Operation := Operation.mk (OpHead.mk "x" 12 []) [] [] [] false

/-- The head of a `pd_op.split` operation with numeric identity 1 and eleven results. -/
def C3.split_a : OpHead := OpHead.mk "pd_op.split" 1 (List.replicate 11 PirType.Float32Type)

/-- The head of a `pd_op.split` operation with numeric identity 11 and one result. -/
def C3.split_b : OpHead := OpHead.mk "pd_op.split" 11 [PirType.Float32Type]

/-- The tuple expressions `ConvertBlock` returns for the blocks of region `i`, the first of
them being block `j`. -/
def blockExprs (op_var_name : String) (i : Nat) : List Block → Nat → List String
  | [], _ => []
  | block :: blocks, j =>
    (ConvertBlock block (op_var_name ++ "_block" ++ to_string i ++ to_string j)).op_expr
      :: blockExprs op_var_name i blocks (j + 1)

/-- The definitions `ConvertBlock` returns for the blocks of region `i`, the first of them
being block `j`. -/
def blockDefs (op_var_name : String) (i : Nat) : List Block → Nat → IStrings
  | [], _ => []
  | block :: blocks, j =>
    (ConvertBlock block (op_var_name ++ "_block" ++ to_string i ++ to_string j)).defines
      ++ blockDefs op_var_name i blocks (j + 1)

/-- The bracketed literals of the regions, the first of them being region `i`. -/
def regionExprs (op_var_name : String) : List (List Block) → Nat → List String
  | [], _ => []
  | region :: regions, i =>
    ("[" ++ ",".intercalate (blockExprs op_var_name i region 0) ++ "]")
      :: regionExprs op_var_name regions (i + 1)

/-- The definitions of the blocks of the regions, the first of them being region `i`. -/
def regionDefs (op_var_name : String) : List (List Block) → Nat → IStrings
  | [], _ => []
  | region :: regions, i =>
    blockDefs op_var_name i region 0 ++ regionDefs op_var_name regions (i + 1)

/-- A free value `a`. -/
def C5.a : Value := Value.BlockArgument 11 PirType.Float32Type

/-- A free value `b`. -/
def C5.b : Value := Value.BlockArgument 22 PirType.Float32Type

/-- The node `demo.add` with numeric identity 7, operands `a` and `b`, one result, no
attribute and no region. -/
def C5.demo_add : Operation :=
  Operation.mk (OpHead.mk "demo.add" 7 [PirType.Float32Type]) [C5.a, C5.b] [] [] false

/-- The text of a nested list-of-lists literal: the outer list has one bracketed entry per
inner list, the entries of every list are separated by commas. -/
def nestedListLiteral (xss : List (List String)) : String :=
  "[" ++ ",".intercalate (xss.map (fun xs => "[" ++ ",".intercalate xs ++ "]")) ++ "]"

/-- The positional-argument entry of a block in the block signature. -/
def positionalArgNames (block : Block) : String :=
  "[" ++ ", ".intercalate (block.args.map (fun v => quoted (ConvertValue v))) ++ "]"

/-- The keyword-argument entry of a block in the block signature. -/
def keywordArgNames (block : Block) : String :=
  "\x7b" ++ ", ".intercalate
    (block.kwargs.map (fun kv => quoted kv.1 ++ ": " ++ quoted (ConvertValue kv.2))) ++ "\x7d"

/-- The statement `ConvertBlock` puts in the block body for an operation of the block. -/
def blockStatement (op : Operation) : IString :=
  if IsReturnOp op then IString.str ("return " ++ (ConvertOpCall op).op_expr)
  else IString.str (ConvertOpCall op).op_expr

/-- The value is a block argument or a result of one of the operations. -/
def Value.definedIn (v : Value) (ops : List Operation) : Prop :=
  match v with
  | Value.OpResult defining_op _ => ∃ p ∈ ops, p.head = defining_op
  | Value.BlockArgument _ _ => True

instance Value.decidableDefinedIn : (v : Value) → (ops : List Operation) →
    Decidable (v.definedIn ops)
  | Value.OpResult defining_op _, ops =>
    inferInstanceAs (Decidable (∃ p ∈ ops, p.head = defining_op))
  | Value.BlockArgument _ _, _ => isTrue trivial

/-- The values whose reference text is part of the call expression of an operation: its
results, its operand sources and the free variables of the blocks of its regions. -/
def referencedValues (op : Operation) : List Value :=
  op.results ++ op.operands ++ op.regions.flatMap (fun region => region.flatMap GetInputs)

/-- In the fragment list `out`, the fragment `define` comes before the whole section
`calls`. -/
def EmittedBefore (out : IStrings) (define : IString) (calls : IStrings) : Prop :=
  ∃ pre post, out = pre ++ define :: post ∧ calls <:+ post

/-- The attribute and type names used in the examples. -/
def exampleDecls : Decls :=
  Decls.mk "a_bool" "a_c64" "a_c128" "a_f32" "a_f64" "a_i32" "a_index" "a_i64" "a_ptr" "a_type"
    "a_str" "a_array" "a_tensorname" "a_symbol" "a_kernel" "a_intarray" "a_scalar" "a_dtype"
    "a_place" "a_layout" "a_group" "a_cinnkernel" "t_vec" "t_dtensor" "t_bf16" "t_f16" "t_f32"
    "t_f64" "t_i8" "t_ui8" "t_i16" "t_i32" "t_i64" "t_index" "t_bool" "t_c64" "t_c128"
    (fun _ => "cpu")

/-- A `pd_op.full` operation with one result. -/
def C9.full_op : Operation :=
  Operation.mk (OpHead.mk "pd_op.full" 2 [PirType.Float32Type]) [] [] [] false

/-- A `pd_op.relu` operation that uses the result of `C9.full_op`. -/
def C9.relu_op : Operation :=
  Operation.mk (OpHead.mk "pd_op.relu" 5 [PirType.Float32Type]) [C9.full_op.result 0] [] []
    false

/-- A module whose block holds `C9.full_op` and `C9.relu_op`. -/
def C9.module_op : Operation :=
  Operation.mk (OpHead.mk "builtin.module" 1 []) [] []
    [[Block.mk [C9.full_op, C9.relu_op] [] []]] false

/-- A conversion session for the program of `C9.module_op`. -/
def C9.helper : PirToPyCodeConverterHelper :=
  (PirToPyCodeConverterHelper.new (Program.mk C9.module_op) 0).1

/-- Reads the body `std::quoted` wrote, up to the first delimiter that is not escaped: returns
the text without the escape characters and what follows the closing delimiter, or nothing
when there is no closing delimiter. -/
def unquote.body : List Char → Option (List Char × List Char)
  | [] => none
  | [c] => if c = quoted.delim then some ([], []) else none
  | c :: d :: ds =>
    if c = quoted.delim then some ([], d :: ds)
    else if c = quoted.escape then (unquote.body ds).map (fun r => (d :: r.1, r.2))
    else (unquote.body (d :: ds)).map (fun r => (c :: r.1, r.2))

/-- Reads a quoted text back: the opening delimiter, the body up to the first delimiter that
is not escaped, and nothing after the closing delimiter. -/
def unquote (q : String) : Option String :=
  match q.data with
  | [] => none
  | c :: cs =>
    if c = quoted.delim then
      match unquote.body cs with
      | some (s, []) => some (String.mk s)
      | _ => none
    else none

/-- A 32-bit float attribute whose value is written `1.5`. -/
def C12.attr : Attribute := Attribute.FloatAttribute "1.5"

/-- A dense tensor type with one dimension of size `2 ^ 32`. -/
def C18.type : PirType := PirType.DenseTensorType [4294967296] PirType.Float32Type

/-- A vector type of a 32-bit float type and a 32-bit integer type. -/
def C19.type : PirType := PirType.VectorType [PirType.Float32Type, PirType.Int32Type]

/-- The tuple expressions of the blocks of an operation, region by region: entry `j` of inner
list `i` is the expression `ConvertBlock` returns for block `j` of region `i`. -/
def regionTuples (op : Operation) : List (List String) :=
  op.regions.enum.map (fun ir => ir.2.enum.map (fun jb =>
    (ConvertBlock jb.2 (ConvertOpUniqueName op.head ++ "_block" ++ to_string ir.1
      ++ to_string jb.1)).op_expr))

/-- The parameter text of the outer wrapper of a block after `self, call`, and of its leaf
tuple after the function reference: empty without free variable, else `, ` followed by the
reference texts of the free variables joined by `, `. -/
def freeVarParams (block : Block) : String :=
  if GetInputs block = [] then ""
  else ", " ++ ", ".intercalate ((GetInputs block).map ConvertValue)

/-- The helpers of successive conversion sessions of one process, in construction order:
each helper is constructed on the counter the construction before it has left. -/
def runSessions : List Program → Int → List PirToPyCodeConverterHelper
  | [], _ => []
  | program :: programs, counter =>
    (PirToPyCodeConverterHelper.new program counter).1
      :: runSessions programs (PirToPyCodeConverterHelper.new program counter).2

/-- A sequence of `SaveIfFlagEnabled` calls, each given by its tag and its program. -/
def SaveCalls (D : Decls) (dir : String) (can_open : String → Bool)
    (calls : List (String × Program)) (st : ProcessState) : ProcessState :=
  calls.foldl (fun st c => SaveIfFlagEnabled D dir can_open c.1 c.2 st) st

/-- The blocks the calls with the tag `tag` append, in call order: for each such call the
rendered program followed by a newline, the program being converted with the value the
counter has at the call. -/
def appendedBlocks (D : Decls) (tag : String) : List (String × Program) → Int → String
  | [], _ => ""
  | c :: cs, counter =>
    (if c.1 = tag then (PirToPyCodeConverterHelper.new c.2 counter).1.Convert D ++ "\n"
      else "")
      ++ appendedBlocks D tag cs (GetAutoIncrementalId counter).2

/-- The program of `C9.module_op`. -/
def exampleProgram : Program := Program.mk C9.module_op

/-- Three calls: two with the tag `pass` around one with the tag `other`. -/
def C26.calls : List (String × Program) :=
  [("pass", exampleProgram), ("other", exampleProgram), ("pass", exampleProgram)]
/-- An operation with one result, nested in the region of `C28.if_op`. -/
def C28.producer : Operation :=
  Operation.mk (OpHead.mk "pd_op.full" 6 [PirType.Float32Type]) [] [] [] false

/-- An operation whose region holds `C28.producer`. -/
def C28.if_op : Operation :=
  Operation.mk (OpHead.mk "pd_op.if" 4 []) [] [] [[Block.mk [C28.producer] [] []]] false

/-- An operation that uses the result of `C28.producer`. -/
def C28.user : Operation :=
  Operation.mk (OpHead.mk "pd_op.relu" 7 [PirType.Float32Type]) [C28.producer.result 0] [] []
    false

/-- A block whose direct members are `C28.if_op` and `C28.user`. -/
def C28.block : Block := Block.mk [C28.if_op, C28.user] [] []

/-- An operation with twelve regions: region 1 has eleven blocks without operation, region 11
has one block with one operation, the other regions have no block. -/
def C29.op : Operation :=
  Operation.mk (OpHead.mk "pd_op.if" 5 []) [] []
    [[], List.replicate 11 (Block.mk [] [] []), [], [], [], [], [], [], [], [], [],
      [Block.mk [C28.producer] [] []]] false

/-- A block without positional argument and with one keyword argument. -/
def C30.block : Block :=
  Block.mk [] [] [("k", Value.BlockArgument 7 PirType.Float32Type)]

/-! ## Lemmas on the text primitives -/

theorem decodeDecimal_snoc (cs : List Char) (c : Char) :
    decodeDecimal (cs ++ [c]) = 10 * decodeDecimal cs + digitVal c := by
  simp [decodeDecimal, List.foldl_append]

theorem digitChar_isDigit (m : Nat) (h : m < 10) :
    (Nat.digitChar m).isDigit = true ∧ digitVal (Nat.digitChar m) = m := by
  interval_cases m <;> decide

theorem toDigitsCore_append (fuel n : Nat) (ds : List Char) :
    Nat.toDigitsCore 10 fuel n ds = Nat.toDigitsCore 10 fuel n [] ++ ds := by
  induction fuel generalizing n ds with
  | zero => simp [Nat.toDigitsCore]
  | succ f ih =>
    simp only [Nat.toDigitsCore]
    split
    · simp
    · rw [ih (n / 10) (_ :: ds), ih (n / 10) [_]]
      simp

theorem toDigitsCore_spec (n : Nat) : ∀ fuel, n < fuel →
    (∀ c ∈ Nat.toDigitsCore 10 fuel n [], c.isDigit = true) ∧
      decodeDecimal (Nat.toDigitsCore 10 fuel n []) = n := by
  induction n using Nat.strong_induction_on with
  | _ n ih =>
    intro fuel hf
    cases fuel with
    | zero => omega
    | succ f =>
      have hd := digitChar_isDigit (n % 10) (Nat.mod_lt _ (by decide))
      simp only [Nat.toDigitsCore]
      split
      · rename_i h0
        refine ⟨by simpa using hd.1, ?_⟩
        have : decodeDecimal [Nat.digitChar (n % 10)] = digitVal (Nat.digitChar (n % 10)) := by
          simp [decodeDecimal]
        rw [this, hd.2]
        omega
      · rename_i h0
        rw [toDigitsCore_append]
        have hlt : n / 10 < n := by omega
        have hrec := ih (n / 10) hlt f (by omega)
        refine ⟨?_, ?_⟩
        · intro c hc
          rcases List.mem_append.1 hc with hc | hc
          · exact hrec.1 c hc
          · simp only [List.mem_singleton] at hc
            rw [hc]
            exact hd.1
        · rw [decodeDecimal_snoc, hrec.2, hd.2]
          omega

theorem to_string_isDigit (n : Nat) : ∀ c ∈ (to_string n).data, c.isDigit = true :=
  (toDigitsCore_spec n (n + 1) (Nat.lt_succ_self n)).1

theorem to_string_decode (n : Nat) : decodeDecimal (to_string n).data = n :=
  (toDigitsCore_spec n (n + 1) (Nat.lt_succ_self n)).2

theorem to_string_injective {m n : Nat} (h : to_string m = to_string n) : m = n := by
  rw [← to_string_decode m, ← to_string_decode n, h]

theorem to_string_ne_empty (n : Nat) : to_string n ≠ "" := by
  intro h
  have h1 : (to_string n).data = [] := by rw [h]
  unfold to_string Nat.repr Nat.toDigits at h1
  simp only [Nat.toDigitsCore, List.asString] at h1
  split at h1
  · simp at h1
  · rw [toDigitsCore_append] at h1
    simp at h1

theorem intercalate_go_eq (sep acc : String) (as : List String) :
    String.intercalate.go acc sep as = acc ++ joinTail sep as := by
  induction as generalizing acc with
  | nil => simp [String.intercalate.go, joinTail]
  | cons a as ih => simp [String.intercalate.go, joinTail, ih, String.append_assoc]

theorem intercalate_cons (sep a : String) (as : List String) :
    sep.intercalate (a :: as) = a ++ joinTail sep as := by
  simp [String.intercalate, intercalate_go_eq]

theorem StreamJoin_fold_pos {α : Type} (sep : String) (f : α → String) (xs : List α)
    (ss : String) (i : Nat) :
    (xs.foldl (fun (st : String × Nat) x =>
      ((if st.2 > 0 then st.1 ++ sep else st.1) ++ f x, st.2 + 1)) (ss, i + 1)).1
      = ss ++ joinTail sep (xs.map f) := by
  induction xs generalizing ss i with
  | nil => simp [joinTail]
  | cons x xs ih => simp [joinTail, ih, String.append_assoc]

/-- The separator loop appends the `sep`-joined texts to the stream. -/
theorem StreamJoin_eq {α : Type} (sep : String) (f : α → String) (xs : List α) (ss : String) :
    StreamJoin sep f xs ss = ss ++ sep.intercalate (xs.map f) := by
  cases xs with
  | nil => simp [StreamJoin, String.intercalate]
  | cons x xs =>
    simp only [StreamJoin, List.foldl_cons, List.map_cons, intercalate_cons]
    rw [show (0 : Nat) + 1 = 0 + 1 from rfl, StreamJoin_fold_pos]
    simp [String.append_assoc]

/-! ## Name resolver -/

/-- The characters `IsValidVarChar` accepts are the ASCII letters, the digits and `_`. -/
theorem IsValidVarChar_eq (ch : Char) :
    IsValidVarChar ch = (ch.isAlphanum || ch == '_') := by
  simp only [IsValidVarChar, Char.isAlphanum, Char.isAlpha, Char.isUpper, Char.isLower,
    Char.isDigit, ge_iff_le, Char.le_def, UInt32.le_def]
  by_cases h1 : (97#32 ≤ ch.val.toBitVec ∧ ch.val.toBitVec ≤ 122#32) <;>
  by_cases h2 : (65#32 ≤ ch.val.toBitVec ∧ ch.val.toBitVec ≤ 90#32) <;>
  by_cases h3 : (48#32 ≤ ch.val.toBitVec ∧ ch.val.toBitVec ≤ 57#32) <;>
  by_cases h4 : ch = '_'
  all_goals simp [h1, h2, h3, h4, UInt32.le_def]
  simp_all

theorem loop_le (name : List Char) (k : Nat) :
    ConvertOpNameToPythonValidVarName.loop name k ≤ k := by
  induction k with
  | zero => simp [ConvertOpNameToPythonValidVarName.loop]
  | succ i ih =>
    simp only [ConvertOpNameToPythonValidVarName.loop]
    split
    · exact Nat.le_refl _
    · exact Nat.le_succ_of_le ih

theorem loop_valid (name : List Char) (k : Nat) :
    ∀ j, ConvertOpNameToPythonValidVarName.loop name k ≤ j → j < k →
      IsValidVarChar (name.getD j ' ') = true := by
  induction k with
  | zero => intro j _ h; omega
  | succ i ih =>
    intro j hj hlt
    simp only [ConvertOpNameToPythonValidVarName.loop] at hj
    split at hj
    · omega
    · rename_i hv
      rcases Nat.lt_succ_iff_lt_or_eq.1 hlt with h | h
      · exact ih j hj h
      · rw [h]; simpa using hv

theorem loop_stop (name : List Char) (k : Nat) :
    0 < ConvertOpNameToPythonValidVarName.loop name k →
      IsValidVarChar (name.getD (ConvertOpNameToPythonValidVarName.loop name k - 1) ' ')
        = false := by
  induction k with
  | zero => simp [ConvertOpNameToPythonValidVarName.loop]
  | succ i ih =>
    simp only [ConvertOpNameToPythonValidVarName.loop]
    split
    · rename_i hv
      intro _
      simpa using hv
    · exact ih

/-- The kept part of a name is a suffix of it. -/
theorem validVarName_suffix (s : String) :
    (ConvertOpNameToPythonValidVarName s).data <:+ s.data :=
  List.drop_suffix _ _

/-- The kept part of a name only has valid characters. -/
theorem validVarName_valid (s : String) :
    ∀ c ∈ (ConvertOpNameToPythonValidVarName s).data, IsValidVarChar c = true := by
  intro c hc
  simp only [ConvertOpNameToPythonValidVarName] at hc
  obtain ⟨i, hi, rfl⟩ := List.mem_iff_getElem.1 hc
  rw [List.getElem_drop]
  have hlen : ConvertOpNameToPythonValidVarName.loop s.data s.data.length + i < s.data.length := by
    have := hi
    simp only [List.length_drop] at this
    omega
  have := loop_valid s.data s.data.length _ (Nat.le_add_right _ i) hlen
  rwa [List.getD_eq_getElem _ _ hlen] at this

/-- Every suffix of the name made of valid characters is inside the kept part. -/
theorem validVarName_longest (s : String) (u : List Char) (hu : u <:+ s.data)
    (hv : ∀ c ∈ u, IsValidVarChar c = true) :
    u <:+ (ConvertOpNameToPythonValidVarName s).data := by
  obtain ⟨p, hp⟩ := hu
  simp only [ConvertOpNameToPythonValidVarName]
  set L := ConvertOpNameToPythonValidVarName.loop s.data s.data.length with hL
  have hle : L ≤ p.length := by
    by_contra hlt
    have hlt : p.length < L := Nat.lt_of_not_le hlt
    have hLlen : L ≤ s.data.length := loop_le _ _
    have hstop := loop_stop s.data s.data.length (by omega)
    rw [← hL] at hstop
    have hidx : L - 1 < s.data.length := by omega
    rw [List.getD_eq_getElem _ _ hidx] at hstop
    have hmem : s.data[L - 1] ∈ u := by
      have hlen : s.data.length = p.length + u.length := by rw [← hp]; simp
      have h2 : L - 1 - p.length < u.length := by omega
      have : s.data[L - 1] = u[L - 1 - p.length] := by
        simp only [← hp]
        rw [List.getElem_append_right (by omega)]
      rw [this]
      exact List.getElem_mem _
    rw [hv _ hmem] at hstop
    exact Bool.noConfusion hstop
  rw [← hp, List.drop_append_of_le_length hle]
  exact List.suffix_append _ _

theorem append_sep_inj {α : Type} (x : α) (a b d1 d2 : List α) (h1 : x ∉ d1) (h2 : x ∉ d2)
    (h : a ++ x :: d1 = b ++ x :: d2) : d1 = d2 := by
  rcases List.append_eq_append_iff.1 h with ⟨a', _, h'⟩ | ⟨c', _, h'⟩
  · cases a' with
    | nil => simpa using h'
    | cons y ys =>
      simp only [List.cons_append, List.cons.injEq] at h'
      exact absurd (by rw [h'.2]; simp) h1
  · cases c' with
    | nil => simpa using h'.symm
    | cons y ys =>
      simp only [List.cons_append, List.cons.injEq] at h'
      exact absurd (by rw [h'.2]; simp) h2

theorem underscore_not_in_to_string (k : Nat) : '_' ∉ (to_string k).data := by
  intro h
  have := to_string_isDigit k _ h
  exact absurd this (by decide)

theorem ConvertOpUniqueName_data (op : OpHead) :
    (ConvertOpUniqueName op).data
      = (ConvertOpNameToPythonValidVarName op.name).data ++ '_' :: (to_string op.id).data := by
  simp [ConvertOpUniqueName, String.data_append]

/-- Two operation heads with the same identifier text have the same numeric identity. -/
theorem ConvertOpUniqueName_id_inj (a b : OpHead)
    (h : ConvertOpUniqueName a = ConvertOpUniqueName b) : a.id = b.id := by
  have hd : (ConvertOpUniqueName a).data = (ConvertOpUniqueName b).data := by rw [h]
  rw [ConvertOpUniqueName_data, ConvertOpUniqueName_data] at hd
  have := append_sep_inj '_' _ _ _ _ (underscore_not_in_to_string a.id)
    (underscore_not_in_to_string b.id) hd
  exact to_string_injective (String.ext this)

/-! ## Free variables of a block -/

theorem foldl_foldl_flatMap {α β σ : Type} (g : α → List β) (f : σ → β → σ) (xs : List α)
    (init : σ) :
    xs.foldl (fun acc x => (g x).foldl f acc) init = (xs.flatMap g).foldl f init := by
  induction xs generalizing init with
  | nil => rfl
  | cons x xs ih => simp [List.flatMap_cons, List.foldl_append, ih]

theorem mem_foldl_cons {α : Type} (xs acc : List α) (v : α) :
    v ∈ xs.foldl (fun vs r => r :: vs) acc ↔ v ∈ acc ∨ v ∈ xs := by
  induction xs generalizing acc with
  | nil => simp
  | cons x xs ih =>
    simp only [List.foldl_cons, ih, List.mem_cons]
    tauto

theorem scanInputs_snoc (P : Value → Prop) [DecidablePred P] (xs : List Value) (x : Value) :
    scanInputs P (xs ++ [x]) =
      if P x then scanInputs P xs
      else if x ∈ scanInputs P xs then scanInputs P xs else scanInputs P xs ++ [x] := by
  simp [scanInputs, List.foldl_append]

theorem mem_scanInputs (P : Value → Prop) [DecidablePred P] (xs : List Value) (v : Value) :
    v ∈ scanInputs P xs ↔ v ∈ xs ∧ ¬ P v := by
  induction xs using List.reverseRecOn generalizing v with
  | nil => simp [scanInputs]
  | append_singleton xs x ih =>
    rw [scanInputs_snoc]
    by_cases hP : P x
    · simp only [hP, if_true, ih, List.mem_append, List.mem_singleton]
      constructor
      · rintro ⟨h1, h2⟩; exact ⟨Or.inl h1, h2⟩
      · rintro ⟨h1 | h1, h2⟩
        · exact ⟨h1, h2⟩
        · rw [h1] at h2; exact absurd hP h2
    · by_cases hx : x ∈ scanInputs P xs
      · simp only [hP, hx, if_true, if_false, ih, List.mem_append, List.mem_singleton]
        constructor
        · rintro ⟨h1, h2⟩; exact ⟨Or.inl h1, h2⟩
        · rintro ⟨h1 | h1, h2⟩
          · exact ⟨h1, h2⟩
          · rw [h1]; exact (ih x).1 hx
      · simp only [hP, hx, if_false, List.mem_append, List.mem_singleton, ih]
        constructor
        · rintro (⟨h1, h2⟩ | h1)
          · exact ⟨Or.inl h1, h2⟩
          · rw [h1]; exact ⟨Or.inr rfl, hP⟩
        · rintro ⟨h1 | h1, h2⟩
          · exact Or.inl ⟨h1, h2⟩
          · exact Or.inr h1

theorem scanInputs_pairwise (P : Value → Prop) [DecidablePred P] (xs : List Value) :
    (scanInputs P xs).Pairwise (fun v w => List.indexOf v xs < List.indexOf w xs) := by
  induction xs using List.reverseRecOn with
  | nil => simp [scanInputs]
  | append_singleton xs x ih =>
    have hkeep : (scanInputs P xs).Pairwise
        (fun v w => List.indexOf v (xs ++ [x]) < List.indexOf w (xs ++ [x])) := by
      refine List.Pairwise.imp_of_mem ?_ ih
      intro v w hv hw h
      rw [List.indexOf_append_of_mem ((mem_scanInputs P xs v).1 hv).1,
        List.indexOf_append_of_mem ((mem_scanInputs P xs w).1 hw).1]
      exact h
    rw [scanInputs_snoc]
    by_cases hP : P x
    · simpa only [hP, if_true] using hkeep
    · by_cases hx : x ∈ scanInputs P xs
      · simpa only [hP, hx, if_true, if_false] using hkeep
      · simp only [hP, hx, if_false]
        rw [List.pairwise_append]
        refine ⟨hkeep, List.pairwise_singleton _ _, ?_⟩
        intro v hv w hw
        rw [List.mem_singleton] at hw
        subst hw
        have hvx := ((mem_scanInputs P xs v).1 hv).1
        have hwx : w ∉ xs := fun h => hx ((mem_scanInputs P xs w).2 ⟨h, hP⟩)
        rw [List.indexOf_append_of_mem hvx, List.indexOf_append_of_not_mem hwx]
        have := List.indexOf_lt_length.2 hvx
        omega

theorem scanInputs_nodup (P : Value → Prop) [DecidablePred P] (xs : List Value) :
    (scanInputs P xs).Nodup := by
  refine List.Pairwise.imp ?_ (scanInputs_pairwise P xs)
  intro v w h hvw
  rw [hvw] at h
  exact Nat.lt_irrefl _ h

/-- `GetInputs` is the scan of the operand sources of the direct member operations that skips
the results of the direct member operations. -/
theorem GetInputs_eq_scan (block : Block) :
    GetInputs block = scanInputs (fun v => v ∈ block.definedValues) block.operandScan := by
  have hvalues : ∀ v, v ∈ block.ops.foldl
      (fun values op => op.results.foldl (fun values r => r :: values) values) []
        ↔ v ∈ block.definedValues := by
    intro v
    rw [foldl_foldl_flatMap Operation.results (fun values r => r :: values), mem_foldl_cons]
    simp [Block.definedValues]
  simp only [GetInputs, scanInputs, Block.operandScan]
  rw [foldl_foldl_flatMap Operation.operands]
  congr 1
  funext inputs input
  simp only [hvalues]

/-! ## Claims on free variables and names -/

/-- C1 (the code at the failing input): `C1.outer_value` is used by a node nested inside
`C1.block` and is produced outside of it, so it belongs to the free variables of the block,
but `GetInputs` returns the empty list.  The wrapper `f` of the block is declared without
free variable and its leaf tuple captures none, while the body of its inner function refers
to `full_20`; the wrapper of the nested block does take `full_20` as a parameter. -/
theorem C1_nested_use_missed :
    GetInputs C1.block = []
    ∧ FreeVariablesSpec C1.block = [C1.outer_value]
    ∧ GetInputs C1.block ≠ FreeVariablesSpec C1.block
    ∧ ConvertValue C1.outer_value = "full_20"
    ∧ (ConvertBlock C1.block "f").op_expr = "(self.f,)"
    ∧ (ConvertBlock C1.block "f").defines
        = [IString.str "def if_4_block00(self, call, full_20):",
            Indent (IString.str "def ret_lambda():"),
            Indent (Indent (IString.str "relu_50, = call(self.relu_5, full_20)")),
            Indent (IString.str "return ret_lambda"),
            Indent (IString.str ""),
            IString.str "def f(self, call):",
            Indent (IString.str "def ret_lambda():"),
            Indent (Indent (IString.str
              "call(self.if_4, blocks=[[(self.if_4_block00, full_20)]])")),
            Indent (IString.str "return ret_lambda"),
            Indent (IString.str "")] := by
  decide

/-- The list `GetInputs` computes for a block holds exactly the operand sources of the
direct member operations of the block that are not results of a direct member operation,
without duplicates and in first-use order of the scan of the direct members. -/
theorem GetInputs_direct_members (block : Block) :
    (∀ v, v ∈ GetInputs block ↔
      (∃ op ∈ block.ops, v ∈ op.operands) ∧ ¬ ∃ op ∈ block.ops, v ∈ op.results)
    ∧ (GetInputs block).Nodup
    ∧ (GetInputs block).Pairwise
        (fun v w => List.indexOf v block.operandScan < List.indexOf w block.operandScan) := by
  rw [GetInputs_eq_scan]
  refine ⟨?_, scanInputs_nodup _ _, scanInputs_pairwise _ _⟩
  intro v
  rw [mem_scanInputs]
  simp [Block.operandScan, Block.definedValues, List.mem_flatMap]

/-- C2: operations with different numeric identities get different identifiers, whatever
their names are. -/
theorem C2_unique_name_injective (n1 n2 : Operation) (h : n1.id ≠ n2.id) :
    ConvertOpUniqueName n1.head ≠ ConvertOpUniqueName n2.head :=
  fun heq => h (ConvertOpUniqueName_id_inj n1.head n2.head heq)

/-- C2 at the operations `x_1` (identity 2) and `x` (identity 12). -/
theorem C2_unique_name_injective_witness :
    C2.op_a.id ≠ C2.op_b.id ∧
      ConvertOpUniqueName C2.op_a.head ≠ ConvertOpUniqueName C2.op_b.head :=
  ⟨by decide, C2_unique_name_injective C2.op_a C2.op_b (by decide)⟩

/-- C3 (the code at the failing input): result 10 of the operation with identity 1 and
result 0 of the operation with identity 11 are different values with the same reference text
`split_110`. -/
theorem C3_value_text_collision :
    C3.split_a.result 10 ≠ C3.split_b.result 0
      ∧ ConvertValue (C3.split_a.result 10) = "split_110"
      ∧ ConvertValue (C3.split_b.result 0) = "split_110" := by
  decide

/-- C4: the node identifier is `t ++ "_" ++ decimal(k)` where `t` is the longest suffix of the
qualified name made of ASCII letters, digits and underscores; `t` is empty when the name is
empty or ends in another character, `t` is the whole name when the name has no other
character, and `demo.add` with identity 7 gives `add_7`. -/
theorem C4_node_identifier (s : String) (k : Nat) (result_types : List PirType) :
    ConvertOpUniqueName (OpHead.mk s k result_types)
        = ConvertOpNameToPythonValidVarName s ++ "_" ++ to_string k
    ∧ (ConvertOpNameToPythonValidVarName s).data <:+ s.data
    ∧ (∀ c ∈ (ConvertOpNameToPythonValidVarName s).data, c.isAlphanum = true ∨ c = '_')
    ∧ (∀ u : List Char, u <:+ s.data → (∀ c ∈ u, c.isAlphanum = true ∨ c = '_') →
        u <:+ (ConvertOpNameToPythonValidVarName s).data)
    ∧ (s = "" → ConvertOpNameToPythonValidVarName s = "")
    ∧ (∀ (p : List Char) (c : Char), s.data = p ++ [c] → ¬ (c.isAlphanum = true ∨ c = '_') →
        ConvertOpNameToPythonValidVarName s = "")
    ∧ ((∀ c ∈ s.data, c.isAlphanum = true ∨ c = '_') → ConvertOpNameToPythonValidVarName s = s)
    ∧ ConvertOpUniqueName (OpHead.mk "demo.add" 7 result_types) = "add_7" := by
  have hiff : ∀ c : Char, IsValidVarChar c = true ↔ (c.isAlphanum = true ∨ c = '_') := by
    intro c
    rw [IsValidVarChar_eq]
    simp
  refine ⟨rfl, validVarName_suffix s, ?_, ?_, ?_, ?_, ?_, ?_⟩
  · intro c hc
    exact (hiff c).1 (validVarName_valid s c hc)
  · intro u hu hv
    exact validVarName_longest s u hu (fun c hc => (hiff c).2 (hv c hc))
  · intro hs
    rw [hs]
    decide
  · intro p c hs hc
    have hv := validVarName_valid s
    have hsuf := validVarName_suffix s
    rw [hs] at hsuf
    apply String.ext
    show (ConvertOpNameToPythonValidVarName s).data = []
    by_contra hne
    have hpre := List.reverse_prefix.2 hsuf
    simp only [List.reverse_append, List.reverse_cons, List.reverse_nil, List.nil_append,
      List.singleton_append] at hpre
    have hmem : c ∈ (ConvertOpNameToPythonValidVarName s).data := by
      cases hrev : (ConvertOpNameToPythonValidVarName s).data.reverse with
      | nil => exact absurd (List.reverse_eq_nil_iff.1 hrev) hne
      | cons y ys =>
        rw [hrev] at hpre
        have hy := (List.cons_prefix_cons.1 hpre).1
        have : y ∈ (ConvertOpNameToPythonValidVarName s).data.reverse := by
          rw [hrev]; exact List.mem_cons_self _ _
        rw [hy] at this
        exact List.mem_reverse.1 this
    exact hc ((hiff c).1 (hv c hmem))
  · intro hall
    have h := validVarName_longest s s.data (List.suffix_refl _)
      (fun c hc => (hiff c).2 (hall c hc))
    apply String.ext
    exact List.IsSuffix.eq_of_length_le (validVarName_suffix s) h.length_le
  · show ConvertOpNameToPythonValidVarName "demo.add" ++ "_" ++ to_string 7 = "add_7"
    decide

/-! ## Attribute arguments -/

theorem VisitAttr_eq_filter {σ : Type} (op : Operation) (f : σ → String → Attribute → σ)
    (init : σ) :
    VisitAttr op f init =
      (op.attributes.filter
        (fun kv => decide (kv.1 ≠ "op_callstack" ∧ kv.1 ≠ "sym_shape_str"))).foldl
        (fun st kv => f st kv.1 kv.2) init := by
  unfold VisitAttr
  generalize op.attributes = attrs
  induction attrs generalizing init with
  | nil => rfl
  | cons kv attrs ih =>
    simp only [List.foldl_cons, List.filter_cons]
    by_cases h1 : kv.1 = "op_callstack"
    · simp [h1, ih]
    · by_cases h2 : kv.1 = "sym_shape_str"
      · simp [h2, ih]
      · simp [h1, h2, ih]

/-- C10: `ConvertAttrsAsArgs` is the `, `-joined sequence of `name=ConvertAttr(attribute)` over
the attributes whose name is neither `op_callstack` nor `sym_shape_str`, in the iteration order
of the attribute map. -/
theorem C10_attrs_as_args (D : Decls) (op : Operation) :
    ConvertAttrsAsArgs D op =
      ", ".intercalate
        ((op.attributes.filter
          (fun kv => decide (kv.1 ≠ "op_callstack" ∧ kv.1 ≠ "sym_shape_str"))).map
          (fun kv => kv.1 ++ "=" ++ ConvertAttr D kv.2)) := by
  unfold ConvertAttrsAsArgs
  rw [VisitAttr_eq_filter]
  have := StreamJoin_eq ", " (fun (kv : String × Attribute) => kv.1 ++ "=" ++ ConvertAttr D kv.2)
    (op.attributes.filter
      (fun kv => decide (kv.1 ≠ "op_callstack" ∧ kv.1 ≠ "sym_shape_str"))) ""
  rw [String.empty_append] at this
  rw [← this]
  rfl

/-! ## Structure of the call expression -/

theorem ne_empty_of_data_ne {s : String} (h : s.data ≠ []) : s ≠ "" := by
  intro hs
  rw [hs] at h
  exact h rfl

theorem ConvertValue_ne_empty (v : Value) : ConvertValue v ≠ "" := by
  apply ne_empty_of_data_ne
  cases v with
  | OpResult op index => simp [ConvertValue, ConvertOpUniqueName, String.data_append]
  | BlockArgument hash type => simp [ConvertValue, String.data_append]

theorem intercalate_map_eq_empty {α : Type} (sep : String) (f : α → String) (xs : List α)
    (hf : ∀ x, f x ≠ "") : sep.intercalate (xs.map f) = "" ↔ xs = [] := by
  cases xs with
  | nil => simp [String.intercalate]
  | cons x xs =>
    simp only [List.map_cons, intercalate_cons, reduceCtorEq, iff_false]
    intro h
    have hd : (f x ++ joinTail sep (List.map f xs)).data = [] := by rw [h]
    simp only [String.data_append, List.append_eq_nil] at hd
    exact hf x (String.ext hd.1)

theorem inner_pos (op_var_name : String) (i : Nat) (blocks : List Block) (j : Nat)
    (st : IStrings × String) :
    ConvertRegions.inner op_var_name i blocks (j + 1) st =
      (st.1 ++ blockDefs op_var_name i blocks (j + 1),
        st.2 ++ joinTail "," (blockExprs op_var_name i blocks (j + 1))) := by
  induction blocks generalizing j st with
  | nil => simp [ConvertRegions.inner, blockDefs, blockExprs, joinTail]
  | cons b bs ih =>
    simp only [ConvertRegions.inner, blockDefs, blockExprs, joinTail]
    rw [ih]
    simp [String.append_assoc]

theorem inner_zero (op_var_name : String) (i : Nat) (blocks : List Block)
    (st : IStrings × String) :
    ConvertRegions.inner op_var_name i blocks 0 st =
      (st.1 ++ blockDefs op_var_name i blocks 0,
        st.2 ++ ",".intercalate (blockExprs op_var_name i blocks 0)) := by
  cases blocks with
  | nil => simp [ConvertRegions.inner, blockDefs, blockExprs, String.intercalate]
  | cons b bs =>
    simp only [ConvertRegions.inner, blockDefs, blockExprs, intercalate_cons]
    rw [inner_pos]
    simp [String.append_assoc]

theorem regions_loop_pos (op_var_name : String) (regions : List (List Block)) (i : Nat)
    (st : IStrings × String) :
    ConvertRegions.loop op_var_name regions (i + 1) st =
      (st.1 ++ regionDefs op_var_name regions (i + 1),
        st.2 ++ joinTail "," (regionExprs op_var_name regions (i + 1))) := by
  induction regions generalizing i st with
  | nil => simp [ConvertRegions.loop, regionDefs, regionExprs, joinTail]
  | cons r rs ih =>
    simp only [ConvertRegions.loop, regionDefs, regionExprs, joinTail]
    rw [inner_zero, ih]
    simp only [String.append_assoc, List.append_assoc, gt_iff_lt, Nat.zero_lt_succ, if_true]

theorem regions_loop_zero (op_var_name : String) (regions : List (List Block))
    (st : IStrings × String) :
    ConvertRegions.loop op_var_name regions 0 st =
      (st.1 ++ regionDefs op_var_name regions 0,
        st.2 ++ ",".intercalate (regionExprs op_var_name regions 0)) := by
  cases regions with
  | nil => simp [ConvertRegions.loop, regionDefs, regionExprs, String.intercalate]
  | cons r rs =>
    simp only [ConvertRegions.loop, regionDefs, regionExprs, intercalate_cons]
    rw [inner_zero, regions_loop_pos]
    simp [String.append_assoc]

/-- `ConvertRegions` returns the definitions of all blocks and the nested list literal. -/
theorem ConvertRegions_eq (op : Operation) :
    ConvertRegions op =
      OpPyCode.mk (regionDefs (ConvertOpUniqueName op.head) op.regions 0)
        ("[" ++ ",".intercalate (regionExprs (ConvertOpUniqueName op.head) op.regions 0)
          ++ "]") := by
  simp [ConvertRegions, regions_loop_zero]

/-- `ConvertOpCall` runs `ConvertRegions` and then builds the call expression. -/
theorem ConvertOpCall_eq (op : Operation) :
    ConvertOpCall op =
      ConvertOpCall.finish op (ConvertRegions op).defines (ConvertRegions op).op_expr := by
  cases op with
  | mk head operands attributes regions y =>
    simp [ConvertOpCall, ConvertRegions, Operation.head, Operation.regions]

theorem ConvertRegions_expr_eq_iff (op : Operation) :
    (ConvertRegions op).op_expr = "[]" ↔ op.num_regions = 0 := by
  rw [ConvertRegions_eq]
  simp only [Operation.num_regions]
  cases op.regions with
  | nil => simp [regionExprs, String.intercalate]
  | cons r rs =>
    simp only [regionExprs, intercalate_cons, List.length_cons]
    constructor
    · intro h
      have hd := congrArg String.data h
      simp [String.data_append] at hd
    · intro h; omega

theorem find_result_idx (op : OpHead) (index : Nat) (l : List Nat) (h : index ∈ l) :
    l.find? (fun i => decide (op.result i = Value.OpResult op index)) = some index := by
  induction l with
  | nil => simp at h
  | cons x xs ih =>
    by_cases hx : x = index
    · simp [List.find?_cons, hx, OpHead.result]
    · have hmem : index ∈ xs := by
        rcases List.mem_cons.1 h with h | h
        · exact absurd h.symm hx
        · exact h
      simp [List.find?_cons, OpHead.result, hx, ih hmem]
      simpa [OpHead.result] using ih hmem

/-- `GetResultIdx` finds the index of a result of the operation. -/
theorem GetResultIdx_eq (op : OpHead) (index : Nat) (h : index < op.num_results) :
    GetResultIdx op (Value.OpResult op index) = (index : Int) := by
  simp only [GetResultIdx]
  rw [find_result_idx op index _ (List.mem_range.2 h)]

/-- The reference text of a result is the node identifier followed by the result index. -/
theorem ConvertValue_result (op : OpHead) (index : Nat) (h : index < op.num_results) :
    ConvertValue (op.result index) = ConvertOpUniqueName op ++ to_string index := by
  simp only [OpHead.result, ConvertValue]
  rw [GetResultIdx_eq op index h]
  rfl

theorem results_eq_nil_iff (op : Operation) : op.results = [] ↔ op.num_results = 0 := by
  simp [Operation.results, OpHead.results, Operation.num_results]

theorem operands_eq_nil_iff (op : Operation) : op.operands = [] ↔ op.num_operands = 0 := by
  simp [Operation.num_operands]

/-- The call expression of an operation: the optional result tuple, the call of the
operation, the optional operand references and the optional `blocks=` argument. -/
theorem ConvertOpCall_expr (op : Operation) :
    (ConvertOpCall op).op_expr =
      (if op.num_results = 0 then ""
        else ", ".intercalate (op.results.map ConvertValue) ++ ", = ")
      ++ "call(self." ++ ConvertOpUniqueName op.head
      ++ (if op.num_operands = 0 then ""
        else ", " ++ ", ".intercalate (op.operands.map ConvertValue))
      ++ (if op.num_regions = 0 then "" else ", blocks=" ++ (ConvertRegions op).op_expr)
      ++ ")" := by
  rw [ConvertOpCall_eq]
  simp only [ConvertOpCall.finish, ConvertOperandsAsArgs, ConvertResultAsTuple, StreamJoin_eq,
    String.empty_append, ne_eq, ite_not]
  have e1 := (intercalate_map_eq_empty ", " ConvertValue op.results
    ConvertValue_ne_empty).trans (results_eq_nil_iff op)
  have e2 := (intercalate_map_eq_empty ", " ConvertValue op.operands
    ConvertValue_ne_empty).trans (operands_eq_nil_iff op)
  have e3 := ConvertRegions_expr_eq_iff op
  simp only [e1, e2, e3]
  by_cases h1 : op.num_results = 0 <;> by_cases h2 : op.num_operands = 0 <;>
    by_cases h3 : op.num_regions = 0 <;>
    simp only [h1, h2, h3, if_true, if_false, String.append_assoc, String.empty_append,
      String.append_empty]

/-! ## Claims on the definition statement and the call expression -/

/-- C5 (as stated, refuted): the call line of `demo.add` is not
`add_7_r0, = call(self.add_7, a, b)`, and the reference text of its result 0 is not
`add_7_r0`. -/
theorem C5_counterexample :
    (ConvertOpCall C5.demo_add).op_expr
        ≠ "add_7_r0, = call(self.add_7, " ++ ConvertValue C5.a ++ ", " ++ ConvertValue C5.b ++ ")"
      ∧ ConvertValue (C5.demo_add.result 0) ≠ "add_7_r0" := by
  decide

/-- C5 (amended): for a node `demo.add` with numeric identity 7, two operands that are free
values, one result, no attribute and no region, the call line is
`<r0>, = call(self.add_7, a, b)` where `a` and `b` are the reference texts of the operands
and `<r0>` is the reference text of result 0. -/
theorem C5_demo_add_call_line (hash_a hash_b : Nat) (type_a type_b result_type : PirType)
    (y : Bool) :
    (ConvertOpCall (Operation.mk (OpHead.mk "demo.add" 7 [result_type])
        [Value.BlockArgument hash_a type_a, Value.BlockArgument hash_b type_b] [] [] y)).op_expr
      = ConvertValue ((OpHead.mk "demo.add" 7 [result_type]).result 0)
          ++ ", = call(self.add_7, " ++ ConvertValue (Value.BlockArgument hash_a type_a)
          ++ ", " ++ ConvertValue (Value.BlockArgument hash_b type_b) ++ ")" := by
  have hname : ConvertOpUniqueName (OpHead.mk "demo.add" 7 [result_type]) = "add_7" := by
    show ConvertOpNameToPythonValidVarName "demo.add" ++ "_" ++ to_string 7 = "add_7"
    decide
  rw [ConvertOpCall_expr]
  simp only [Operation.num_results, Operation.num_operands, Operation.num_regions,
    Operation.head, Operation.operands, Operation.regions, Operation.results, OpHead.results,
    OpHead.num_results, List.length_cons, List.length_nil, List.range_succ, List.range_zero,
    List.nil_append, List.map_cons, List.map_nil, hname, intercalate_cons, joinTail,
    Nat.succ_ne_zero, if_false, if_true, String.append_assoc, String.append_empty,
    Nat.zero_add, Nat.reduceAdd, OfNat.ofNat_ne_zero, one_ne_zero]
  rfl

theorem ConvertBlockSignatureAsArgs_eq (op : Operation) :
    ConvertBlockSignatureAsArgs op =
      if op.num_regions = 0 then ""
      else "block_positional_arg_names="
        ++ nestedListLiteral (op.regions.map (fun r => r.map positionalArgNames))
        ++ ", block_keyword_arg_names="
        ++ nestedListLiteral (op.regions.map (fun r => r.map keywordArgNames)) := by
  unfold ConvertBlockSignatureAsArgs
  split
  · rfl
  · simp only [StreamJoin_eq, ConvertPostionalArgsAsQuotedString,
      ConvertKeywordArgsAsQuotedString, String.empty_append, nestedListLiteral,
      List.map_map, String.append_assoc]
    have h1 : "block_positional_arg_names=[" = "block_positional_arg_names=" ++ "[" := by decide
    have h2 : "block_keyword_arg_names=[" = "block_keyword_arg_names=" ++ "[" := by decide
    have h3 : "], " = "]" ++ ", " := by decide
    have h4 : ", block_keyword_arg_names=" = ", " ++ "block_keyword_arg_names=" := by decide
    have hp : positionalArgNames = fun block =>
        "[" ++ (", ".intercalate (block.args.map (fun v => quoted (ConvertValue v))) ++ "]") := by
      funext block
      simp only [positionalArgNames, String.append_assoc]
    have hk : keywordArgNames = fun block =>
        "\x7b" ++ (", ".intercalate (block.kwargs.map
          (fun kv => quoted kv.1 ++ (": " ++ quoted (ConvertValue kv.2)))) ++ "\x7d") := by
      funext block
      simp only [keywordArgNames, String.append_assoc]
    rw [h1, h2, h3, h4, hp, hk]
    simp only [String.append_assoc, Function.comp_def]

theorem ConvertBlockSignatureAsArgs_eq_empty (op : Operation) :
    ConvertBlockSignatureAsArgs op = "" ↔ op.num_regions = 0 := by
  rw [ConvertBlockSignatureAsArgs_eq]
  by_cases h : op.num_regions = 0
  · simp [h]
  · simp only [h, if_false, iff_false]
    apply ne_empty_of_data_ne
    simp [String.data_append]

/-- The definition statement of an operation. -/
theorem DefineOp_eq (D : Decls) (op : Operation) :
    DefineOp D op =
      "self." ++ ConvertOpUniqueName op.head ++ " = self.Op(" ++ quoted op.name ++ ", "
        ++ to_string op.id
        ++ ", input_types=[" ++ ", ".intercalate (op.operands.map (fun v => ConvertType D v.type))
        ++ "], output_types=["
        ++ ", ".intercalate (op.results.map (fun v => ConvertType D v.type))
        ++ "], attrs=dict(" ++ ConvertAttrsAsArgs D op ++ ")"
        ++ (if op.num_regions = 0 then ""
            else ", block_positional_arg_names="
              ++ nestedListLiteral (op.regions.map (fun r => r.map positionalArgNames))
              ++ ", block_keyword_arg_names="
              ++ nestedListLiteral (op.regions.map (fun r => r.map keywordArgNames)))
        ++ ")" := by
  have hempty := ConvertBlockSignatureAsArgs_eq_empty op
  have hsig := ConvertBlockSignatureAsArgs_eq op
  simp only [DefineOp, ConvertInputTypes, ConvertOutputTypes, StreamJoin_eq, ne_eq, ite_not,
    hempty]
  have h1 : ", input_types=[" = ", " ++ ("input_types=" ++ "[") := by decide
  have h2 : "], output_types=[" = "]" ++ (", output_types=" ++ "[") := by decide
  have h3 : "], attrs=dict(" = "]" ++ ", attrs=dict(" := by decide
  have h4 : ", block_positional_arg_names=" = ", " ++ "block_positional_arg_names=" := by
    decide
  by_cases h : op.num_regions = 0
  · simp only [h, if_true, h1, h2, h3, String.append_assoc, String.append_empty]
  · rw [hsig]
    simp only [h, if_false, h1, h2, h3, h4, String.append_assoc]

/-- C6: the definition statement `DefineOp` yields, with the block signature present exactly
when the operation has a region; the two block-signature lists are nested lists with one
inner list per region and one entry per block. -/
theorem C6_define_op (D : Decls) (op : Operation) :
    DefineOp D op =
      "self." ++ ConvertOpUniqueName op.head ++ " = self.Op(" ++ quoted op.name ++ ", "
        ++ to_string op.id
        ++ ", input_types=[" ++ ", ".intercalate (op.operands.map (fun v => ConvertType D v.type))
        ++ "], output_types=["
        ++ ", ".intercalate (op.results.map (fun v => ConvertType D v.type))
        ++ "], attrs=dict(" ++ ConvertAttrsAsArgs D op ++ ")"
        ++ (if op.num_regions = 0 then ""
            else ", block_positional_arg_names="
              ++ nestedListLiteral (op.regions.map (fun r => r.map positionalArgNames))
              ++ ", block_keyword_arg_names="
              ++ nestedListLiteral (op.regions.map (fun r => r.map keywordArgNames)))
        ++ ")"
    ∧ (op.regions.map (fun r => r.map positionalArgNames)).map List.length
        = op.regions.map List.length
    ∧ (op.regions.map (fun r => r.map keywordArgNames)).map List.length
        = op.regions.map List.length
    ∧ ∀ (operands : List Value) (result_types : List PirType) (y : Bool),
        DefineOp D (Operation.mk (OpHead.mk "demo.add" 7 result_types) operands [] [] y)
          = "self.add_7 = self.Op(\"demo.add\", 7, input_types=["
            ++ ", ".intercalate (operands.map (fun v => ConvertType D v.type))
            ++ "], output_types=["
            ++ ", ".intercalate
                ((OpHead.mk "demo.add" 7 result_types).results.map
                  (fun v => ConvertType D v.type))
            ++ "], attrs=dict())" := by
  refine ⟨DefineOp_eq D op, by simp, by simp, ?_⟩
  intro operands result_types y
  rw [DefineOp_eq]
  have hname : ConvertOpUniqueName (OpHead.mk "demo.add" 7 result_types) = "add_7" := by
    show ConvertOpNameToPythonValidVarName "demo.add" ++ "_" ++ to_string 7 = "add_7"
    decide
  have hattrs : ConvertAttrsAsArgs D
      (Operation.mk (OpHead.mk "demo.add" 7 result_types) operands [] [] y) = "" := by
    simp [ConvertAttrsAsArgs, VisitAttr, Operation.attributes]
  have hq : quoted "demo.add" = "\"demo.add\"" := by decide
  have h7 : to_string 7 = "7" := by decide
  simp only [Operation.head, Operation.name, Operation.id, Operation.operands,
    Operation.results, Operation.num_regions, Operation.regions, List.length_nil, if_true,
    hname, hattrs, hq, h7, String.append_assoc, String.append_empty]
  rfl

/-- C7: the call expression of an operation is
`<results>, = call(self.<identifier>, <operands>, blocks=<region literal>)`; the result tuple
is omitted exactly when the operation has no result, the operand list exactly when it has no
operand, and the `blocks=` argument exactly when it has no region. -/
theorem C7_call_expression (op : Operation) :
    (ConvertOpCall op).op_expr =
      (if op.num_results = 0 then ""
        else ", ".intercalate (op.results.map ConvertValue) ++ ", = ")
      ++ "call(self." ++ ConvertOpUniqueName op.head
      ++ (if op.num_operands = 0 then ""
        else ", " ++ ", ".intercalate (op.operands.map ConvertValue))
      ++ (if op.num_regions = 0 then "" else ", blocks=" ++ (ConvertRegions op).op_expr)
      ++ ")" :=
  ConvertOpCall_expr op

/-! ## Structure of the converted program -/

theorem PushBackIndented_eq (ret istrings : IStrings) :
    PushBackIndented ret istrings = ret ++ istrings.map Indent := by
  unfold PushBackIndented
  induction istrings generalizing ret with
  | nil => simp
  | cons x xs ih => simp [ih]

theorem DefineInit_eq (D : Decls) (module : Operation) :
    DefineInit D module =
      IString.str "def __init__(self):"
        :: ((Walk module).map (fun op => Indent (IString.str (DefineOp D op)))
          ++ [Indent (IString.str "")]) := by
  have h : ∀ (ops : List Operation) (acc : IStrings),
      ops.foldl (fun def_init op => def_init ++ [Indent (IString.str (DefineOp D op))]) acc
        = acc ++ ops.map (fun op => Indent (IString.str (DefineOp D op))) := by
    intro ops
    induction ops with
    | nil => simp
    | cons x xs ih => intro acc; simp [ih]
  simp [DefineInit, h]

theorem ConvertModuleOp_eq (module : Operation) :
    ConvertModuleOp module =
      (ConvertRegions module).defines
        ++ [IString.str "def __call__(self, call, *args, **kwargs):",
            Indent (IString.str "self.SetArgs(args)"),
            Indent (IString.str "self.SetKeywordArgs(kwargs)"),
            Indent (IString.str ("return " ++ (ConvertOpCall module).op_expr))] := by
  simp [ConvertModuleOp, ConvertToCallMethod, ConvertOpCall_eq module, ConvertOpCall.finish]

theorem ConvertIStringsToString_cons (self : PirToPyCodeConverterHelper) (x : IString)
    (xs : IStrings) :
    self.ConvertIStringsToString (x :: xs) =
      self.ConvertIStringToString x ++ "\n" ++ "\n" ++ self.ConvertIStringsToString xs := by
  have h : ∀ (ys : IStrings) (acc : String),
      ys.foldl (fun ss istring => ss ++ self.ConvertIStringToString istring ++ "\n" ++ "\n") acc
        = acc ++ ys.foldl
          (fun ss istring => ss ++ self.ConvertIStringToString istring ++ "\n" ++ "\n") "" := by
    intro ys
    induction ys with
    | nil => intro acc; simp
    | cons y ys ih =>
      intro acc
      simp only [List.foldl_cons]
      rw [ih, ih ("" ++ _ ++ "\n" ++ "\n")]
      simp only [String.append_assoc, String.empty_append]
  simp only [PirToPyCodeConverterHelper.ConvertIStringsToString, List.foldl_cons]
  rw [h]
  simp only [String.append_assoc, String.empty_append]

/-- The fragments of a converted program: the class header, then, indented, the constructor
with one definition statement per walked operation, the block function definitions and the
`__call__` method. -/
theorem ConvertToIStrings_eq (D : Decls) (self : PirToPyCodeConverterHelper) :
    PirToPyCodeConverterHelper.ConvertToIStrings D self =
      IString.str ("class " ++ self.GetPyClassName ++ ":")
        :: Indent (IString.str "def __init__(self):")
        :: ((Walk self.program.module_op).map
              (fun op => Indent (Indent (IString.str (DefineOp D op))))
            ++ Indent (Indent (IString.str ""))
            :: ((ConvertRegions self.program.module_op).defines.map Indent
              ++ [Indent (IString.str "def __call__(self, call, *args, **kwargs):"),
                  Indent (Indent (IString.str "self.SetArgs(args)")),
                  Indent (Indent (IString.str "self.SetKeywordArgs(kwargs)")),
                  Indent (Indent (IString.str
                    ("return " ++ (ConvertOpCall self.program.module_op).op_expr)))])) := by
  simp [PirToPyCodeConverterHelper.ConvertToIStrings,
    PirToPyCodeConverterHelper.ConvertMethodsToPyClass, PushBackIndented_eq, DefineInit_eq,
    ConvertModuleOp_eq]

/-! ## Call expressions emitted for the walked operations -/

theorem ConvertBlock_loop_eq (ops : List Operation) (st : IStrings × IStrings) :
    ConvertBlock.loop ops st =
      (st.1 ++ ops.flatMap (fun op => (ConvertOpCall op).defines),
        st.2 ++ ops.map blockStatement) := by
  induction ops generalizing st with
  | nil => simp [ConvertBlock.loop]
  | cons op ops ih =>
    simp only [ConvertBlock.loop]
    rw [ih]
    simp [blockStatement, List.flatMap_cons]

/-- `ConvertBlock` runs its loop over the operations and then builds the two functions. -/
theorem ConvertBlock_eq (block : Block) (func_op_name : String) :
    ConvertBlock block func_op_name =
      ConvertBlock.finish block func_op_name
        (block.ops.flatMap (fun op => (ConvertOpCall op).defines))
        (block.ops.map blockStatement) := by
  cases block with
  | mk ops args kwargs => simp [ConvertBlock, ConvertBlock_loop_eq, Block.ops]

/-- The definitions `ConvertBlock` returns: those of the operations of the block, then the
wrapper function holding the inner function, whose body has one statement per operation. -/
theorem ConvertBlock_defines (block : Block) (func_op_name : String) :
    (ConvertBlock block func_op_name).defines =
      block.ops.flatMap (fun op => (ConvertOpCall op).defines)
        ++ (IString.str ("def " ++ func_op_name ++ "(self, call"
              ++ (if ConvertFreeVarsAsArgs block = "" then "" else ", ")
              ++ ConvertFreeVarsAsArgs block ++ "):")
          :: Indent (IString.str ("def " ++ "ret_lambda" ++ "(" ++ ConvertInputsAsArgs block.args
              ++ (if ConvertKwargsToString block = "" then "" else ", *, ")
              ++ ConvertKwargsToString block ++ "):"))
          :: ((block.ops.map (fun op => Indent (Indent (blockStatement op))))
            ++ [Indent (IString.str ("return " ++ "ret_lambda")), Indent (IString.str "")])) := by
  rw [ConvertBlock_eq]
  simp [ConvertBlock.finish, PushBackIndented_eq]

mutual
theorem emitted_op : ∀ (op o : Operation), o ∈ Walk.regions op.regions →
    Indent (Indent (blockStatement o)) ∈ (ConvertOpCall op).defines
  | Operation.mk head operands attributes regions y, o, h => by
    rw [ConvertOpCall_eq, ConvertRegions_eq]
    simp only [ConvertOpCall.finish, Operation.regions, Operation.head] at h ⊢
    exact emitted_regions regions _ 0 o h
theorem emitted_regions : ∀ (regions : List (List Block)) (name : String) (i : Nat)
    (o : Operation), o ∈ Walk.regions regions →
    Indent (Indent (blockStatement o)) ∈ regionDefs name regions i
  | [], _, _, o, h => by simp [Walk.regions] at h
  | region :: regions, name, i, o, h => by
    simp only [Walk.regions, List.mem_append] at h
    simp only [regionDefs, List.mem_append]
    rcases h with h | h
    · exact Or.inl (emitted_blocks region name i 0 o h)
    · exact Or.inr (emitted_regions regions name (i + 1) o h)
theorem emitted_blocks : ∀ (blocks : List Block) (name : String) (i j : Nat)
    (o : Operation), o ∈ Walk.blocks blocks →
    Indent (Indent (blockStatement o)) ∈ blockDefs name i blocks j
  | [], _, _, _, o, h => by simp [Walk.blocks] at h
  | Block.mk ops args kwargs :: blocks, name, i, j, o, h => by
    simp only [Walk.blocks, List.mem_append] at h
    simp only [blockDefs, List.mem_append]
    rcases h with h | h
    · left
      rw [ConvertBlock_defines]
      simp only [Block.ops, List.mem_append, List.mem_cons, List.mem_map]
      rcases emitted_ops ops o h with h | h
      · right; right; right; left
        exact ⟨o, h, rfl⟩
      · exact Or.inl h
    · exact Or.inr (emitted_blocks blocks name i (j + 1) o h)
theorem emitted_ops : ∀ (ops : List Operation) (o : Operation), o ∈ Walk.ops ops →
    o ∈ ops ∨ Indent (Indent (blockStatement o))
      ∈ ops.flatMap (fun op => (ConvertOpCall op).defines)
  | [], o, h => by simp [Walk.ops] at h
  | Operation.mk head operands attributes regions y :: ops, o, h => by
    simp only [Walk.ops, Walk, List.mem_append, List.mem_cons] at h
    simp only [List.mem_cons, List.flatMap_cons, List.mem_append]
    rcases h with (h | h) | h
    · exact Or.inl (Or.inl h)
    · exact Or.inr (Or.inl
        (emitted_op (Operation.mk head operands attributes regions y) o h))
    · rcases emitted_ops ops o h with h | h
      · exact Or.inl (Or.inr h)
      · exact Or.inr (Or.inr h)
end

/-! ## Walked operations -/

theorem Walk_eq (op : Operation) : Walk op = op :: Walk.regions op.regions := by
  cases op with
  | mk head operands attributes regions y => simp [Walk, Operation.regions]

theorem mem_Walk_self (op : Operation) : op ∈ Walk op := by
  rw [Walk_eq]
  exact List.mem_cons_self _ _

theorem mem_Walk_ops_of_mem (ops : List Operation) (op o : Operation) (hop : op ∈ ops)
    (ho : o ∈ Walk op) : o ∈ Walk.ops ops := by
  induction ops with
  | nil => simp at hop
  | cons x xs ih =>
    simp only [Walk.ops, List.mem_append]
    rcases List.mem_cons.1 hop with h | h
    · left; rw [← h]; exact ho
    · exact Or.inr (ih h)

theorem mem_Walk_blocks_of_mem (blocks : List Block) (block : Block) (o : Operation)
    (hb : block ∈ blocks) (ho : o ∈ Walk.ops block.ops) : o ∈ Walk.blocks blocks := by
  induction blocks with
  | nil => simp at hb
  | cons x xs ih =>
    cases x with
    | mk ops args kwargs =>
      simp only [Walk.blocks, List.mem_append]
      rcases List.mem_cons.1 hb with h | h
      · left; rw [h] at ho; exact ho
      · exact Or.inr (ih h)

theorem mem_Walk_regions_of_mem (regions : List (List Block)) (region : List Block)
    (o : Operation) (hr : region ∈ regions) (ho : o ∈ Walk.blocks region) :
    o ∈ Walk.regions regions := by
  induction regions with
  | nil => simp at hr
  | cons x xs ih =>
    simp only [Walk.regions, List.mem_append]
    rcases List.mem_cons.1 hr with h | h
    · left; rw [← h]; exact ho
    · exact Or.inr (ih h)

mutual
theorem Walk_trans_op : ∀ (m op o : Operation), op ∈ Walk m → o ∈ Walk op → o ∈ Walk m
  | Operation.mk head operands attributes regions y, op, o, hop, ho => by
    simp only [Walk, List.mem_cons] at hop ⊢
    rcases hop with h | h
    · rw [h, Walk_eq] at ho
      simpa [Operation.regions] using ho
    · exact Or.inr (Walk_trans_regions regions op o h ho)
theorem Walk_trans_regions : ∀ (regions : List (List Block)) (op o : Operation),
    op ∈ Walk.regions regions → o ∈ Walk op → o ∈ Walk.regions regions
  | [], op, _, hop, _ => by simp [Walk.regions] at hop
  | region :: regions, op, o, hop, ho => by
    simp only [Walk.regions, List.mem_append] at hop ⊢
    rcases hop with h | h
    · exact Or.inl (Walk_trans_blocks region op o h ho)
    · exact Or.inr (Walk_trans_regions regions op o h ho)
theorem Walk_trans_blocks : ∀ (blocks : List Block) (op o : Operation),
    op ∈ Walk.blocks blocks → o ∈ Walk op → o ∈ Walk.blocks blocks
  | [], op, _, hop, _ => by simp [Walk.blocks] at hop
  | Block.mk ops args kwargs :: blocks, op, o, hop, ho => by
    simp only [Walk.blocks, List.mem_append] at hop ⊢
    rcases hop with h | h
    · exact Or.inl (Walk_trans_ops ops op o h ho)
    · exact Or.inr (Walk_trans_blocks blocks op o h ho)
theorem Walk_trans_ops : ∀ (ops : List Operation) (op o : Operation),
    op ∈ Walk.ops ops → o ∈ Walk op → o ∈ Walk.ops ops
  | [], op, _, hop, _ => by simp [Walk.ops] at hop
  | x :: ops, op, o, hop, ho => by
    simp only [Walk.ops, List.mem_append] at hop ⊢
    rcases hop with h | h
    · exact Or.inl (Walk_trans_op x op o h ho)
    · exact Or.inr (Walk_trans_ops ops op o h ho)
end

/-- An operation of a block of a region of a walked operation is walked. -/
theorem mem_Walk_of_nested (m op o : Operation) (region : List Block) (block : Block)
    (hop : op ∈ Walk m) (hr : region ∈ op.regions) (hb : block ∈ region) (ho : o ∈ block.ops) :
    o ∈ Walk m := by
  apply Walk_trans_op m op o hop
  rw [Walk_eq]
  right
  exact mem_Walk_regions_of_mem _ region o hr
    (mem_Walk_blocks_of_mem _ block o hb (mem_Walk_ops_of_mem _ o o ho (mem_Walk_self o)))

theorem referenced_definedIn (m : Operation)
    (hclosed : ∀ op ∈ Walk m, ∀ v ∈ op.operands, v.definedIn (Walk m))
    (op : Operation) (hop : op ∈ Walk m) (v : Value) (hv : v ∈ referencedValues op) :
    v.definedIn (Walk m) := by
  simp only [referencedValues, List.mem_append, List.mem_flatMap] at hv
  rcases hv with (hv | hv) | ⟨region, hr, block, hb, hv⟩
  · simp only [Operation.results, OpHead.results, List.mem_map] at hv
    obtain ⟨i, _, rfl⟩ := hv
    exact ⟨op, hop, rfl⟩
  · exact hclosed op hop v hv
  · rw [GetInputs_eq_scan, mem_scanInputs] at hv
    simp only [Block.operandScan, List.mem_flatMap] at hv
    obtain ⟨⟨o, ho, hvo⟩, _⟩ := hv
    exact hclosed o (mem_Walk_of_nested m op o region block hop hr hb ho) v hvo

/-! ## Claims on the converted program -/

/-- C8: the text `Convert` returns starts with the class header line; the body holds, in
order, the constructor `def __init__(self):` with exactly one definition statement per
operation of the walk of the module (in walk order), the block function definitions, and the
`def __call__` method whose last statement returns the call expression of the module. -/
theorem C8_convert_structure (D : Decls) (self : PirToPyCodeConverterHelper) :
    self.Convert D =
      "class " ++ ("PirProgram_" ++ to_string_int self.seq_no) ++ ":" ++ "\n" ++ "\n"
        ++ self.ConvertIStringsToString
          (Indent (IString.str "def __init__(self):")
            :: ((Walk self.program.module_op).map
                  (fun op => Indent (Indent (IString.str (DefineOp D op))))
                ++ Indent (Indent (IString.str ""))
                :: ((ConvertRegions self.program.module_op).defines.map Indent
                  ++ [Indent (IString.str "def __call__(self, call, *args, **kwargs):"),
                      Indent (Indent (IString.str "self.SetArgs(args)")),
                      Indent (Indent (IString.str "self.SetKeywordArgs(kwargs)")),
                      Indent (Indent (IString.str
                        ("return " ++ (ConvertOpCall self.program.module_op).op_expr)))]))) := by
  simp only [PirToPyCodeConverterHelper.Convert]
  rw [ConvertToIStrings_eq, ConvertIStringsToString_cons]
  rfl

/-- C9: when every operand of a walked operation is a block argument or a result of a walked
operation, the output is the class header, the constructor section and the call section; the
call expression of every walked operation is a line of the call section; and for every value
referenced by the call expression of a walked operation that is a result of an operation, the
definition statement of a walked operation with that head is emitted before the whole call
section. -/
theorem C9_definition_before_use (D : Decls) (self : PirToPyCodeConverterHelper)
    (hclosed : ∀ op ∈ Walk self.program.module_op, ∀ v ∈ op.operands,
      v.definedIn (Walk self.program.module_op)) :
    PirToPyCodeConverterHelper.ConvertToIStrings D self =
        IString.str ("class " ++ self.GetPyClassName ++ ":")
          :: ((Indent (IString.str "def __init__(self):")
              :: ((Walk self.program.module_op).map
                    (fun op => Indent (Indent (IString.str (DefineOp D op))))
                  ++ [Indent (Indent (IString.str ""))]))
            ++ (ConvertModuleOp self.program.module_op).map Indent)
    ∧ (∀ op ∈ Walk self.program.module_op,
        (op = self.program.module_op
          ∧ Indent (Indent (IString.str ("return " ++ (ConvertOpCall op).op_expr)))
            ∈ (ConvertModuleOp self.program.module_op).map Indent)
        ∨ Indent (Indent (Indent (blockStatement op)))
            ∈ (ConvertModuleOp self.program.module_op).map Indent)
    ∧ (∀ op ∈ Walk self.program.module_op, ∀ v ∈ referencedValues op,
        ∀ (defining_op : OpHead) (index : Nat), v = Value.OpResult defining_op index →
          ∃ p ∈ Walk self.program.module_op, p.head = defining_op
            ∧ EmittedBefore (PirToPyCodeConverterHelper.ConvertToIStrings D self)
                (Indent (Indent (IString.str (DefineOp D p))))
                ((ConvertModuleOp self.program.module_op).map Indent)) := by
  have hout : PirToPyCodeConverterHelper.ConvertToIStrings D self =
        IString.str ("class " ++ self.GetPyClassName ++ ":")
          :: ((Indent (IString.str "def __init__(self):")
              :: ((Walk self.program.module_op).map
                    (fun op => Indent (Indent (IString.str (DefineOp D op))))
                  ++ [Indent (Indent (IString.str ""))]))
            ++ (ConvertModuleOp self.program.module_op).map Indent) := by
    rw [ConvertToIStrings_eq, ConvertModuleOp_eq]
    simp
  refine ⟨hout, ?_, ?_⟩
  · intro op hop
    rw [Walk_eq] at hop
    rcases List.mem_cons.1 hop with h | h
    · left
      refine ⟨h, ?_⟩
      rw [h, ConvertModuleOp_eq]
      simp
    · right
      have := emitted_op self.program.module_op op h
      rw [ConvertOpCall_eq] at this
      rw [ConvertModuleOp_eq]
      simp only [List.map_append, List.mem_append, List.mem_map]
      exact Or.inl ⟨_, this, rfl⟩
  · intro op hop v hv defining_op index hvi
    have hdef := referenced_definedIn self.program.module_op hclosed op hop v hv
    rw [hvi] at hdef
    obtain ⟨p, hp, hhead⟩ := hdef
    refine ⟨p, hp, hhead, ?_⟩
    obtain ⟨a, b, hab⟩ := List.append_of_mem hp
    refine ⟨IString.str ("class " ++ self.GetPyClassName ++ ":")
        :: Indent (IString.str "def __init__(self):")
        :: a.map (fun op => Indent (Indent (IString.str (DefineOp D op)))),
      b.map (fun op => Indent (Indent (IString.str (DefineOp D op))))
        ++ [Indent (Indent (IString.str ""))]
        ++ (ConvertModuleOp self.program.module_op).map Indent, ?_, List.suffix_append _ _⟩
    rw [hout, hab]
    simp

/-- C9 at the program of `C9.module_op`, whose `pd_op.relu` uses the result of its
`pd_op.full`. -/
theorem C9_definition_before_use_witness :
    (∀ op ∈ Walk C9.helper.program.module_op, ∀ v ∈ op.operands,
      v.definedIn (Walk C9.helper.program.module_op))
    ∧ (∀ op ∈ Walk C9.helper.program.module_op, ∀ v ∈ referencedValues op,
        ∀ (defining_op : OpHead) (index : Nat), v = Value.OpResult defining_op index →
          ∃ p ∈ Walk C9.helper.program.module_op, p.head = defining_op
            ∧ EmittedBefore (PirToPyCodeConverterHelper.ConvertToIStrings exampleDecls C9.helper)
                (Indent (Indent (IString.str (DefineOp exampleDecls p))))
                ((ConvertModuleOp C9.helper.program.module_op).map Indent)) :=
  ⟨by decide, (C9_definition_before_use exampleDecls C9.helper (by decide)).2.2⟩

/-! ## Attribute and type literals -/

theorem to_string_int_eq (n : Int) :
    to_string_int n = (if n < 0 then "-" else "") ++ to_string n.natAbs := by
  cases n with
  | ofNat m =>
    have h : ¬ (Int.ofNat m < 0) := by simp
    simp only [to_string_int, h, if_false, String.empty_append]
    rfl
  | negSucc m =>
    have h : Int.negSucc m < 0 := Int.negSucc_lt_zero m
    simp only [to_string_int, h, if_true, Int.natAbs_negSucc]

/-- C11: a 32-bit, 64-bit or index integer attribute is rendered as
`self.<tag name>(<decimal>)`, the decimal having a leading `-` when the value is negative; a
boolean attribute as `self.<tag name>(True)` or `self.<tag name>(False)`; an attribute `axis`
with the 32-bit integer value -1 is rendered `axis=self.Int32Attribute(-1)` in the attribute
list when the tag name is `Int32Attribute`. -/
theorem C11_integer_and_bool_attrs (D : Decls) (n : Int) (b : Bool) :
    ConvertAttr D (Attribute.Int32Attribute n)
        = "self." ++ D.Int32Attribute ++ "("
          ++ ((if n < 0 then "-" else "") ++ to_string n.natAbs) ++ ")"
    ∧ ConvertAttr D (Attribute.Int64Attribute n)
        = "self." ++ D.Int64Attribute ++ "("
          ++ ((if n < 0 then "-" else "") ++ to_string n.natAbs) ++ ")"
    ∧ ConvertAttr D (Attribute.IndexAttribute n)
        = "self." ++ D.IndexAttribute ++ "("
          ++ ((if n < 0 then "-" else "") ++ to_string n.natAbs) ++ ")"
    ∧ ConvertAttr D (Attribute.BoolAttribute b)
        = "self." ++ D.BoolAttribute ++ "(" ++ (if b = true then "True" else "False") ++ ")"
    ∧ (∀ (head : OpHead) (operands : List Value) (regions : List (List Block)) (y : Bool),
        D.Int32Attribute = "Int32Attribute" →
        ConvertAttrsAsArgs D
            (Operation.mk head operands [("axis", Attribute.Int32Attribute (-1))] regions y)
          = "axis=self.Int32Attribute(-1)") := by
  refine ⟨?_, ?_, ?_, ?_, ?_⟩
  · simp only [ConvertAttr, to_string_int_eq]
  · simp only [ConvertAttr, to_string_int_eq]
  · simp only [ConvertAttr, to_string_int_eq]
  · simp only [ConvertAttr]
  · intro head operands regions y hD
    have h1 : to_string_int (-1) = "-1" := by decide
    simp only [ConvertAttrsAsArgs, VisitAttr, Operation.attributes, List.foldl_cons,
      List.foldl_nil, ConvertAttr, hD, h1]
    decide
/-- C12 (as stated, refuted): the argument of the rendering of the float attribute written
`1.5` is the quoted text `"1.5"`; the rendering is not `self.a_f32(1.5)` and has no argument
free of double quotes. -/
theorem C12_counterexample :
    ConvertAttr exampleDecls C12.attr = "self.a_f32(\"1.5\")"
      ∧ ConvertAttr exampleDecls C12.attr ≠ "self.a_f32(1.5)"
      ∧ ¬ ∃ arg : String, quoted.delim ∉ arg.data
          ∧ ConvertAttr exampleDecls C12.attr = "self.a_f32(" ++ arg ++ ")" := by
  refine ⟨by decide, by decide, ?_⟩
  rintro ⟨arg, hfree, harg⟩
  have hval : ConvertAttr exampleDecls C12.attr = "self.a_f32(" ++ "\"1.5\"" ++ ")" := by
    decide
  rw [hval] at harg
  have hd := congrArg String.data harg
  simp only [String.data_append, List.append_assoc] at hd
  have h1 := List.append_cancel_left hd
  have h2 := List.append_inj_left' h1 rfl
  apply hfree
  rw [← h2]
  decide

/-- C12 (amended): a 32-bit or 64-bit float attribute is rendered as `self.<tag name>("<text>")`:
the single argument is the text written for the value, enclosed in double quotes. -/
theorem C12_float_attrs_quoted (D : Decls) (data : String) :
    ConvertAttr D (Attribute.FloatAttribute data)
        = "self." ++ D.FloatAttribute ++ "(" ++ "\"" ++ data ++ "\"" ++ ")"
    ∧ ConvertAttr D (Attribute.DoubleAttribute data)
        = "self." ++ D.DoubleAttribute ++ "(" ++ "\"" ++ data ++ "\"" ++ ")" := by
  have h1 : "(\"" = "(" ++ "\"" := by decide
  have h2 : "\")" = "\"" ++ ")" := by decide
  constructor <;> simp only [ConvertAttr, h1, h2, String.append_assoc]

/-- C13: a memory-place attribute is rendered as `self.<tag name>(<quoted kind>)` when the
place kind is CPU or pinned-host, and as `self.<tag name>(<quoted kind>, <device index>)` for
every other kind; the quoted kind is the device type of a custom place and the allocation-type
text of any other place. -/
theorem C13_place_attr (D : Decls) (place : Place) :
    ConvertAttr D (Attribute.PlaceAttribute place)
        = "self." ++ D.PlaceAttribute ++ "("
          ++ quoted (if place.type = AllocationType.CUSTOM then place.device_type
              else D.AllocationTypeStr place.type)
          ++ (if place.type = AllocationType.CPU ∨ place.type = AllocationType.GPUPINNED then ""
              else ", " ++ to_string_int place.device_id)
          ++ ")"
    ∧ (∀ (device_type : String) (device_id : Int),
        ConvertAttr D (Attribute.PlaceAttribute
            (Place.mk AllocationType.CPU device_type device_id))
          = "self." ++ D.PlaceAttribute ++ "(" ++ quoted (D.AllocationTypeStr AllocationType.CPU)
            ++ ")")
    ∧ (∀ (device_type : String) (device_id : Int),
        ConvertAttr D (Attribute.PlaceAttribute
            (Place.mk AllocationType.GPUPINNED device_type device_id))
          = "self." ++ D.PlaceAttribute ++ "("
            ++ quoted (D.AllocationTypeStr AllocationType.GPUPINNED) ++ ")")
    ∧ (∀ (device_type : String),
        ConvertAttr D (Attribute.PlaceAttribute (Place.mk AllocationType.GPU device_type 2))
          = "self." ++ D.PlaceAttribute ++ "(" ++ quoted (D.AllocationTypeStr AllocationType.GPU)
            ++ ", " ++ "2" ++ ")") := by
  refine ⟨?_, ?_, ?_, ?_⟩
  · simp only [ConvertAttr]
    by_cases h1 : place.type = AllocationType.CUSTOM <;>
      by_cases h2 : place.type = AllocationType.GPUPINNED <;>
      by_cases h3 : place.type = AllocationType.CPU <;>
      simp [h1, h2, h3]
  · intro device_type device_id
    simp [ConvertAttr]
  · intro device_type device_id
    simp [ConvertAttr]
  · intro device_type
    have h2 : to_string_int 2 = "2" := by decide
    simp [ConvertAttr, h2, String.append_assoc]

theorem quoted_body_eq_flatMap (cs : List Char) :
    quoted.body cs = cs.flatMap (fun c =>
      if c = quoted.delim ∨ c = quoted.escape then [quoted.escape, c] else [c]) := by
  induction cs with
  | nil => rfl
  | cons c cs ih =>
    simp only [quoted.body, List.flatMap_cons, ih]
    split <;> simp

/-- Reading the body `std::quoted` wrote for `s`, followed by the closing delimiter and any
text, gives `s` back and leaves exactly that text. -/
theorem unquote_body_quoted (s rest : List Char) :
    unquote.body (quoted.body s ++ quoted.delim :: rest) = some (s, rest) := by
  induction s with
  | nil =>
    cases rest with
    | nil => simp [quoted.body, unquote.body]
    | cons r rs => simp [quoted.body, unquote.body]
  | cons c cs ih =>
    by_cases h : c = quoted.delim ∨ c = quoted.escape
    · have hne : quoted.escape ≠ quoted.delim := by decide
      simp only [quoted.body, h, if_true, List.cons_append, unquote.body, hne, if_false, ih]
      rfl
    · have h1 : c ≠ quoted.delim := fun e => h (Or.inl e)
      have h2 : c ≠ quoted.escape := fun e => h (Or.inr e)
      have hb : quoted.body (c :: cs) = c :: quoted.body cs := by
        simp only [quoted.body, h, if_false]
      rw [hb, List.cons_append]
      cases hq : quoted.body cs ++ quoted.delim :: rest with
      | nil => simp at hq
      | cons d ds =>
        simp only [unquote.body, h1, h2, if_false]
        rw [← hq, ih]
        rfl

/-- Reading a quoted text back gives the text. -/
theorem unquote_quoted (s : String) : unquote (quoted s) = some s := by
  simp only [unquote, quoted, if_true]
  rw [show quoted.body s.data ++ [quoted.delim] = quoted.body s.data ++ quoted.delim :: [] from
    rfl, unquote_body_quoted]

/-- C14: a plain-string or tensor-name attribute is rendered as `self.<tag name>(<q>)` where
`q` is the text between double quotes with every double quote and every backslash preceded by
a backslash; reading `q` back gives the text, and the first double quote of the body of `q`
that is not escaped is the closing one. -/
theorem C14_string_attrs (D : Decls) (s : String) :
    ConvertAttr D (Attribute.StrAttribute s) = "self." ++ D.StrAttribute ++ "(" ++ quoted s ++ ")"
    ∧ ConvertAttr D (Attribute.TensorNameAttribute s)
        = "self." ++ D.TensorNameAttribute ++ "(" ++ quoted s ++ ")"
    ∧ (quoted s).data
        = Char.ofNat 34 :: (s.data.flatMap (fun c =>
            if c = Char.ofNat 34 ∨ c = Char.ofNat 92 then [Char.ofNat 92, c] else [c])
          ++ [Char.ofNat 34])
    ∧ unquote (quoted s) = some s
    ∧ (∀ rest : List Char,
        unquote.body ((quoted s).data.tail ++ rest) = some (s.data, rest)) := by
  refine ⟨?_, ?_, ?_, unquote_quoted s, ?_⟩
  · simp only [ConvertAttr]
  · simp only [ConvertAttr]
  · simp only [quoted, quoted_body_eq_flatMap]
    rfl
  · intro rest
    simp only [quoted, List.tail_cons, List.append_assoc, List.singleton_append]
    exact unquote_body_quoted s.data rest
theorem ConvertAttr_loop_pos (D : Decls) (as : List Attribute) (i : Nat) (ss : String) :
    ConvertAttr.loop D as (i + 1) ss = ss ++ joinTail ", " (as.map (ConvertAttr D)) := by
  induction as generalizing i ss with
  | nil => simp [ConvertAttr.loop, joinTail]
  | cons a as ih =>
    simp only [ConvertAttr.loop, List.map_cons, joinTail, ih, gt_iff_lt, Nat.zero_lt_succ,
      if_true, String.append_assoc]

/-- The loop over the elements of an array attribute appends their `, `-joined renderings. -/
theorem ConvertAttr_loop_zero (D : Decls) (as : List Attribute) (ss : String) :
    ConvertAttr.loop D as 0 ss = ss ++ ", ".intercalate (as.map (ConvertAttr D)) := by
  cases as with
  | nil => simp [ConvertAttr.loop, String.intercalate]
  | cons a as =>
    simp only [ConvertAttr.loop, List.map_cons, intercalate_cons, ConvertAttr_loop_pos,
      gt_iff_lt, Nat.lt_irrefl, if_false, String.append_assoc]

theorem ConvertType_loop_pos (D : Decls) (ts : List PirType) (i : Nat) (ss : String) :
    ConvertType.loop D ts (i + 1) ss = ss ++ joinTail ", " (ts.map (ConvertType D)) := by
  induction ts generalizing i ss with
  | nil => simp [ConvertType.loop, joinTail]
  | cons t ts ih =>
    simp only [ConvertType.loop, List.map_cons, joinTail, ih, gt_iff_lt, Nat.zero_lt_succ,
      if_true, String.append_assoc]

/-- The loop over the elements of a vector type appends their `, `-joined renderings. -/
theorem ConvertType_loop_zero (D : Decls) (ts : List PirType) (ss : String) :
    ConvertType.loop D ts 0 ss = ss ++ ", ".intercalate (ts.map (ConvertType D)) := by
  cases ts with
  | nil => simp [ConvertType.loop, String.intercalate]
  | cons t ts =>
    simp only [ConvertType.loop, List.map_cons, intercalate_cons, ConvertType_loop_pos,
      gt_iff_lt, Nat.lt_irrefl, if_false, String.append_assoc]

/-- The rendering of a vector type: the invocation is named by `DenseTensorType::name()`. -/
theorem ConvertType_vector (D : Decls) (elems : List PirType) :
    ConvertType D (PirType.VectorType elems)
      = "self." ++ D.DenseTensorType ++ "(" ++ ", ".intercalate (elems.map (ConvertType D))
        ++ ")" := by
  simp only [ConvertType, ConvertType_loop_zero, String.append_assoc]

theorem toInt32_of_range (d : Int) (h1 : -2 ^ 31 ≤ d) (h2 : d < 2 ^ 31) : toInt32 d = d := by
  unfold toInt32
  rw [Int.emod_eq_of_lt (by omega) (by omega)]
  omega

/-- The rendering of a dense tensor type whose dimensions fit in 32 bits. -/
theorem ConvertType_dense_of_range (D : Decls) (dims : List Int) (dtype : PirType)
    (h : ∀ d ∈ dims, -2 ^ 31 ≤ d ∧ d < 2 ^ 31) :
    ConvertType D (PirType.DenseTensorType dims dtype)
      = "self." ++ D.DenseTensorType ++ "([" ++ ", ".intercalate (dims.map to_string_int)
        ++ "], " ++ ConvertType D dtype ++ ")" := by
  have hmap : dims.map toInt32 = dims := by
    induction dims with
    | nil => rfl
    | cons d ds ih =>
      have hd := h d (List.mem_cons_self _ _)
      rw [List.map_cons, toInt32_of_range d hd.1 hd.2,
        ih (fun x hx => h x (List.mem_cons_of_mem _ hx))]
  have h1 : "([" = "(" ++ "[" := by decide
  simp only [ConvertType, StreamJoin_eq, hmap, h1, String.append_assoc]

/-- C15: an array attribute is rendered as `self.<array tag name>(` followed by the renderings
of its elements joined by `, ` and by `)`, the same `ConvertAttr` being applied to every
element; the empty array gives `self.<array tag name>()`. -/
theorem C15_array_attr (D : Decls) (elems : List Attribute) :
    ConvertAttr D (Attribute.ArrayAttribute elems)
        = "self." ++ D.ArrayAttribute ++ "(" ++ ", ".intercalate (elems.map (ConvertAttr D))
          ++ ")"
    ∧ ConvertAttr D (Attribute.ArrayAttribute []) = "self." ++ D.ArrayAttribute ++ "()" := by
  have h : ∀ es : List Attribute, ConvertAttr D (Attribute.ArrayAttribute es)
      = "self." ++ D.ArrayAttribute ++ "(" ++ ", ".intercalate (es.map (ConvertAttr D))
        ++ ")" := by
    intro es
    simp only [ConvertAttr, ConvertAttr_loop_zero, String.append_assoc]
  refine ⟨h elems, ?_⟩
  rw [h []]
  have h2 : "()" = "(" ++ ")" := by decide
  simp only [List.map_nil, String.intercalate, String.append_empty, h2, String.append_assoc]

/-- C16: an unclassified attribute is rendered as `self.UnclassifiedAttribute()`, whatever its
content and whatever the declared tag names. -/
theorem C16_unclassified_attr (D : Decls) (content : String) :
    ConvertAttr D (Attribute.UnclassifiedAttribute content) = "self.UnclassifiedAttribute()" := by
  simp only [ConvertAttr]

/-- C17: an unclassified type is rendered as `self.UnclassifiedType(<q>)` where `q` is the
printed form of the type between double quotes with its double quotes and backslashes
escaped; reading `q` back gives the printed form. -/
theorem C17_unclassified_type (D : Decls) (printed : String) :
    ConvertType D (PirType.UnclassifiedType printed)
        = "self.UnclassifiedType(" ++ quoted printed ++ ")"
    ∧ (quoted printed).data
        = Char.ofNat 34 :: (printed.data.flatMap (fun c =>
            if c = Char.ofNat 34 ∨ c = Char.ofNat 92 then [Char.ofNat 92, c] else [c])
          ++ [Char.ofNat 34])
    ∧ unquote (quoted printed) = some printed := by
  refine ⟨?_, ?_, unquote_quoted printed⟩
  · simp only [ConvertType]
  · simp only [quoted, quoted_body_eq_flatMap]
    rfl

/-- C18 (the code at the failing input): the dimension `2 ^ 32` of `C18.type` is rendered as
`0`; dimensions that fit in 32 bits are rendered with their own value, in the stated form. -/
theorem C18_dense_tensor_dims :
    ConvertType exampleDecls C18.type = "self.t_dtensor([0], self.t_f32())"
    ∧ ConvertType exampleDecls C18.type ≠ "self.t_dtensor([4294967296], self.t_f32())"
    ∧ (∀ (D : Decls) (dims : List Int) (dtype : PirType),
        (∀ d ∈ dims, -2 ^ 31 ≤ d ∧ d < 2 ^ 31) →
        ConvertType D (PirType.DenseTensorType dims dtype)
          = "self." ++ D.DenseTensorType ++ "([" ++ ", ".intercalate (dims.map to_string_int)
            ++ "], " ++ ConvertType D dtype ++ ")") := by
  refine ⟨by decide, by decide, ?_⟩
  intro D dims dtype h
  exact ConvertType_dense_of_range D dims dtype h

/-- C19 (the code at the failing input): a vector type is rendered as an invocation named by
the tag name of the dense tensor type, `t_dtensor` in the example, not by the tag name
`t_vec` of the vector type. -/
theorem C19_vector_type_name :
    ConvertType exampleDecls C19.type = "self.t_dtensor(self.t_f32(), self.t_i32())"
    ∧ ConvertType exampleDecls C19.type
        ≠ "self." ++ exampleDecls.VectorType ++ "(self.t_f32(), self.t_i32())"
    ∧ (∀ (D : Decls) (elems : List PirType),
        ConvertType D (PirType.VectorType elems)
          = "self." ++ D.DenseTensorType ++ "("
            ++ ", ".intercalate (elems.map (ConvertType D)) ++ ")") := by
  refine ⟨by decide, by decide, ?_⟩
  intro D elems
  exact ConvertType_vector D elems
theorem blockExprs_eq_enumFrom (op_var_name : String) (i : Nat) (blocks : List Block)
    (j : Nat) :
    blockExprs op_var_name i blocks j
      = (blocks.enumFrom j).map (fun jb =>
          (ConvertBlock jb.2 (op_var_name ++ "_block" ++ to_string i
            ++ to_string jb.1)).op_expr) := by
  induction blocks generalizing j with
  | nil => rfl
  | cons b bs ih => simp only [blockExprs, List.enumFrom_cons, List.map_cons, ih]

theorem regionExprs_eq_enumFrom (op_var_name : String) (regions : List (List Block))
    (i : Nat) :
    regionExprs op_var_name regions i
      = (regions.enumFrom i).map (fun ir =>
          "[" ++ ",".intercalate (ir.2.enum.map (fun jb =>
            (ConvertBlock jb.2 (op_var_name ++ "_block" ++ to_string ir.1
              ++ to_string jb.1)).op_expr)) ++ "]") := by
  induction regions generalizing i with
  | nil => rfl
  | cons r rs ih =>
    simp only [regionExprs, List.enumFrom_cons, List.map_cons, ih, blockExprs_eq_enumFrom,
      List.enum]

theorem map_length_enumFrom_map {α β : Type} (f : Nat × α → β) (l : List α) (n : Nat) :
    ((l.enumFrom n).map f).length = l.length := by
  induction l generalizing n with
  | nil => rfl
  | cons x xs ih => simp only [List.enumFrom_cons, List.map_cons, List.length_cons, ih]

theorem regionTuples_lengths_aux {β : Type} (g : Nat → Nat × Block → β)
    (regions : List (List Block)) (n : Nat) :
    ((regions.enumFrom n).map (fun ir => (ir.2.enumFrom 0).map (g ir.1))).map List.length
      = regions.map List.length := by
  induction regions generalizing n with
  | nil => rfl
  | cons r rs ih =>
    simp only [List.enumFrom_cons, List.map_cons, ih, map_length_enumFrom_map]

/-- C20: the region literal of an operation is the nested list-of-lists literal whose outer
list has one entry per region, in order, and whose inner lists have one entry per block of
the region, in order, each entry being the tuple expression `ConvertBlock` returns for the
block; it is `[]` for an operation without region and `[[]]` for one region without block. -/
theorem C20_region_literal (op : Operation) :
    (ConvertRegions op).op_expr = nestedListLiteral (regionTuples op)
    ∧ (regionTuples op).length = op.num_regions
    ∧ (regionTuples op).map List.length = op.regions.map List.length
    ∧ (∀ (head : OpHead) (operands : List Value) (attributes : List (String × Attribute))
        (y : Bool),
        (ConvertRegions (Operation.mk head operands attributes [] y)).op_expr = "[]"
        ∧ (ConvertRegions (Operation.mk head operands attributes [[]] y)).op_expr = "[[]]") := by
  refine ⟨?_, ?_, ?_, ?_⟩
  · rw [ConvertRegions_eq]
    simp only [nestedListLiteral, regionTuples, regionExprs_eq_enumFrom, List.enum,
      List.map_map, Function.comp_def, String.append_assoc]
  · simp only [regionTuples, List.enum, map_length_enumFrom_map, Operation.num_regions]
  · simp only [regionTuples, List.enum]
    exact regionTuples_lengths_aux
      (fun i jb => (ConvertBlock jb.2 (ConvertOpUniqueName op.head ++ "_block" ++ to_string i
        ++ to_string jb.1)).op_expr) op.regions 0
  · intro head operands attributes y
    constructor
    · rw [ConvertRegions_eq]
      simp only [Operation.regions, regionExprs, String.intercalate]
      decide
    · rw [ConvertRegions_eq]
      simp only [Operation.regions, regionExprs, blockExprs, String.intercalate,
        String.intercalate.go]
      decide

/-! ## Block functions -/

theorem ConvertFreeVarsAsArgs_eq (block : Block) :
    ConvertFreeVarsAsArgs block = ", ".intercalate ((GetInputs block).map ConvertValue) := by
  simp only [ConvertFreeVarsAsArgs, ConvertInputsAsArgs, StreamJoin_eq, String.empty_append]

theorem ConvertFreeVarsAsArgs_eq_empty (block : Block) :
    ConvertFreeVarsAsArgs block = "" ↔ GetInputs block = [] := by
  rw [ConvertFreeVarsAsArgs_eq]
  exact intercalate_map_eq_empty ", " ConvertValue (GetInputs block) ConvertValue_ne_empty

/-- The declaration of the outer wrapper in terms of the free variables. -/
theorem wrapper_declare_eq (block : Block) (func_op_name : String) :
    "def " ++ func_op_name ++ "(self, call"
        ++ (if ConvertFreeVarsAsArgs block = "" then "" else ", ")
        ++ ConvertFreeVarsAsArgs block ++ "):"
      = "def " ++ func_op_name ++ "(self, call" ++ freeVarParams block ++ "):" := by
  have he := ConvertFreeVarsAsArgs_eq_empty block
  by_cases h : GetInputs block = []
  · have h' := he.2 h
    simp only [freeVarParams, h, h', if_true, String.append_empty]
  · have h' : ¬ ConvertFreeVarsAsArgs block = "" := fun e => h (he.1 e)
    simp only [freeVarParams, h, h', if_false]
    simp only [ConvertFreeVarsAsArgs_eq, String.append_assoc]

/-- C22: the body of the inner function of a block has exactly one statement per operation
of the block, in block order: `return <call expression>` for a yield operation and the call
expression itself for any other operation; when the last operation is a yield, the last
statement returns its call expression. -/
theorem C22_inner_function_body (block : Block) (func_op_name : String) :
    (ConvertBlock block func_op_name).defines
        = block.ops.flatMap (fun op => (ConvertOpCall op).defines)
          ++ (IString.str ("def " ++ func_op_name ++ "(self, call" ++ freeVarParams block
                ++ "):")
            :: Indent (IString.str ("def " ++ "ret_lambda" ++ "("
                ++ ConvertInputsAsArgs block.args
                ++ (if ConvertKwargsToString block = "" then "" else ", *, ")
                ++ ConvertKwargsToString block ++ "):"))
            :: ((block.ops.map (fun op => Indent (Indent (IString.str
                  ((if op.isa_YieldOp = true then "return " else "")
                    ++ (ConvertOpCall op).op_expr)))))
              ++ [Indent (IString.str ("return " ++ "ret_lambda")),
                  Indent (IString.str "")]))
    ∧ (block.ops.map (fun op => Indent (Indent (IString.str
          ((if op.isa_YieldOp = true then "return " else "")
            ++ (ConvertOpCall op).op_expr))))).length = block.ops.length
    ∧ (∀ (ops : List Operation) (last : Operation), block.ops = ops ++ [last] →
        last.isa_YieldOp = true →
        (block.ops.map (fun op => Indent (Indent (IString.str
          ((if op.isa_YieldOp = true then "return " else "")
            ++ (ConvertOpCall op).op_expr))))).getLast?
          = some (Indent (Indent (IString.str ("return " ++ (ConvertOpCall last).op_expr))))) := by
  have hstmt : ∀ op : Operation, blockStatement op
      = IString.str ((if op.isa_YieldOp = true then "return " else "")
          ++ (ConvertOpCall op).op_expr) := by
    intro op
    by_cases h : op.isa_YieldOp = true
    · simp [blockStatement, IsReturnOp, h]
    · simp [blockStatement, IsReturnOp, h]
  refine ⟨?_, by simp, ?_⟩
  · rw [ConvertBlock_defines, wrapper_declare_eq]
    simp only [hstmt]
  · intro ops last hops hlast
    rw [hops]
    simp [hlast]

/-! ## Indented fragments -/

theorem indent_spaces (n : Nat) :
    (List.range n).foldl (fun (ret : String) _ => ret ++ " ") ""
      = String.mk (List.replicate n ' ') := by
  induction n with
  | zero => rfl
  | succ k ih =>
    rw [List.range_succ, List.foldl_append, ih]
    apply String.ext
    simp [String.data_append, List.replicate_succ']

/-- C23: rendering a wrapped fragment gives `unit width` spaces followed by the rendering of
the fragment; rendering a literal line wrapped `d` times gives `unit width * d` spaces
followed by the line; wrapping keeps the wrapped fragment unchanged. -/
theorem C23_render_indentation (self : PirToPyCodeConverterHelper) (f : IString) (s : String)
    (d : Nat) :
    self.ConvertIStringToString (Indent f)
        = String.mk (List.replicate self.indent_size ' ') ++ self.ConvertIStringToString f
    ∧ self.ConvertIStringToString (Nat.iterate Indent d (IString.str s))
        = String.mk (List.replicate (self.indent_size * d) ' ') ++ s
    ∧ self.ConvertIStringToString (IString.str s) = s
    ∧ (∀ g : IString, Indent f = Indent g → f = g) := by
  have h1 : ∀ x : IString, self.ConvertIStringToString (Indent x)
      = String.mk (List.replicate self.indent_size ' ') ++ self.ConvertIStringToString x := by
    intro x
    simp only [Indent, PirToPyCodeConverterHelper.ConvertIStringToString, indent_spaces]
  refine ⟨h1 f, ?_, rfl, ?_⟩
  · induction d with
    | zero =>
      simp only [Function.iterate_zero, id_eq, Nat.mul_zero, List.replicate_zero,
        PirToPyCodeConverterHelper.ConvertIStringToString]
      rfl
    | succ k ih =>
      rw [Function.iterate_succ_apply', h1, ih, ← String.append_assoc]
      congr 1
      apply String.ext
      simp only [String.data_append, ← List.replicate_add]
      congr 1
      ring
  · intro g h
    simpa [Indent] using h

/-! ## Conversion sessions -/

theorem new_counter_succ (program : Program) (k : Nat) (h : k + 1 < 2 ^ 63) :
    (PirToPyCodeConverterHelper.new program (k : Int)).2 = ((k + 1 : Nat) : Int) := by
  simp only [PirToPyCodeConverterHelper.new, GetAutoIncrementalId]
  have h1 : (0 : Int) ≤ (k : Int) + 1 + 2 ^ 63 := by positivity
  have h2 : (k : Int) + 1 + 2 ^ 63 < 2 ^ 64 := by
    have : ((k + 1 : Nat) : Int) < 2 ^ 63 := by exact_mod_cast h
    push_cast at this
    omega
  rw [Int.emod_eq_of_lt h1 h2]
  push_cast
  omega

/-- The sequence numbers of successive sessions count up from the counter of the first. -/
theorem runSessions_seq_no (programs : List Program) :
    ∀ (k i : Nat), k + programs.length ≤ 2 ^ 63 → i < programs.length →
      ((runSessions programs (k : Int)).map (fun h => h.seq_no))[i]?
        = some ((k + i : Nat) : Int) := by
  induction programs with
  | nil => intro k i _ hi; simp at hi
  | cons p ps ih =>
    intro k i hk hi
    cases i with
    | zero =>
      simp [runSessions, PirToPyCodeConverterHelper.new, GetAutoIncrementalId]
    | succ i' =>
      have hi' : i' < ps.length := by simpa using hi
      have hk1 : k + 1 < 2 ^ 63 := by
        simp only [List.length_cons] at hk
        omega
      simp only [runSessions, List.map_cons, List.getElem?_cons_succ]
      rw [new_counter_succ p k hk1, ih (k + 1) i' (by simp only [List.length_cons] at hk; omega)
        hi']
      congr 2
      omega

theorem runSessions_class_name (programs : List Program) (k i : Nat)
    (hk : k + programs.length ≤ 2 ^ 63) (hi : i < programs.length) :
    ((runSessions programs (k : Int)).map (fun h => h.GetPyClassName))[i]?
      = some ("PirProgram_" ++ to_string (k + i)) := by
  have hmap : (runSessions programs (k : Int)).map (fun h => h.GetPyClassName)
      = ((runSessions programs (k : Int)).map (fun h => h.seq_no)).map
          (fun n => "PirProgram_" ++ to_string_int n) := by
    simp only [List.map_map, Function.comp_def, PirToPyCodeConverterHelper.GetPyClassName]
  rw [hmap, List.getElem?_map, runSessions_seq_no programs k i hk hi]
  rfl

theorem Save_seq_no (D : Decls) (dir : String) (can_open : String → Bool) (tag : String)
    (program : Program) (st : ProcessState) (hdir : dir ≠ "") :
    (SaveIfFlagEnabled D dir can_open tag program st).seq_no
      = (GetAutoIncrementalId st.seq_no).2 := by
  simp only [SaveIfFlagEnabled, hdir, if_false, PirToPyCodeConverterHelper.new]
  split <;> split <;> rfl

theorem SaveCalls_seq_no (D : Decls) (dir : String) (can_open : String → Bool)
    (hdir : dir ≠ "") (calls : List (String × Program)) :
    ∀ (st : ProcessState) (k : Nat), st.seq_no = (k : Int) → k + calls.length < 2 ^ 63 →
      (SaveCalls D dir can_open calls st).seq_no = ((k + calls.length : Nat) : Int) := by
  induction calls with
  | nil => intro st k hs _; simpa [SaveCalls] using hs
  | cons c cs ih =>
    intro st k hs hk
    simp only [List.length_cons] at hk
    have hstep : (SaveIfFlagEnabled D dir can_open c.1 c.2 st).seq_no = ((k + 1 : Nat) : Int) := by
      rw [Save_seq_no D dir can_open c.1 c.2 st hdir, hs]
      exact new_counter_succ c.2 k (by omega)
    have := ih (SaveIfFlagEnabled D dir can_open c.1 c.2 st) (k + 1) hstep (by omega)
    simp only [SaveCalls, List.foldl_cons, List.length_cons] at this ⊢
    rw [this]
    congr 1
    omega

theorem to_string_int_natCast (n : Nat) : to_string_int (n : Int) = to_string n := rfl

theorem class_name_ne (i j : Nat) (h : i ≠ j) :
    "PirProgram_" ++ to_string i ≠ "PirProgram_" ++ to_string j := by
  intro he
  have hd := congrArg String.data he
  simp only [String.data_append] at hd
  exact h (to_string_injective (String.ext (List.append_cancel_left hd)))

/-- C24: the process-wide counter starts at 0; the constructor of a conversion session takes
the counter as its sequence number and leaves the counter one higher, so the helpers of
successive sessions take the sequence numbers 0, 1, 2, ... (and each `SaveIfFlagEnabled` call
with a directory advances the counter of the process by one); the class name of session `i`
is `PirProgram_` followed by the decimal `i`, and two different sessions get different class
names (within the range of the 64-bit counter). -/
theorem C24_class_names (files : String → Option String) (programs : List Program) (i j : Nat)
    (hij : i ≠ j) (hi : i < programs.length) (hj : j < programs.length)
    (hlen : programs.length ≤ 2 ^ 63) :
    (ProcessState.init files).seq_no = 0
    ∧ ((runSessions programs (ProcessState.init files).seq_no).map (fun h => h.seq_no))[i]?
        = some (i : Int)
    ∧ ((runSessions programs (ProcessState.init files).seq_no).map
          (fun h => h.GetPyClassName))[i]? = some ("PirProgram_" ++ to_string i)
    ∧ ((runSessions programs (ProcessState.init files).seq_no).map
          (fun h => h.GetPyClassName))[j]? = some ("PirProgram_" ++ to_string j)
    ∧ ((runSessions programs (ProcessState.init files).seq_no).map
          (fun h => h.GetPyClassName))[i]?
        ≠ ((runSessions programs (ProcessState.init files).seq_no).map
          (fun h => h.GetPyClassName))[j]?
    ∧ (∀ (D : Decls) (dir : String) (can_open : String → Bool)
        (calls : List (String × Program)), dir ≠ "" → calls.length < 2 ^ 63 →
        (SaveCalls D dir can_open calls (ProcessState.init files)).seq_no
          = (calls.length : Int))
    ∧ (∀ (program : Program) (k : Nat), k + 1 < 2 ^ 63 →
        (PirToPyCodeConverterHelper.new program (k : Int)).1.seq_no = (k : Int)
        ∧ (PirToPyCodeConverterHelper.new program (k : Int)).1.GetPyClassName
            = "PirProgram_" ++ to_string k
        ∧ (PirToPyCodeConverterHelper.new program (k : Int)).2 = (k : Int) + 1) := by
  have h0 : (ProcessState.init files).seq_no = ((0 : Nat) : Int) := rfl
  have hk : 0 + programs.length ≤ 2 ^ 63 := by omega
  have hsi := runSessions_seq_no programs 0 i hk hi
  have hni := runSessions_class_name programs 0 i hk hi
  have hnj := runSessions_class_name programs 0 j hk hj
  simp only [Nat.zero_add] at hsi hni hnj
  rw [h0]
  refine ⟨rfl, hsi, hni, hnj, ?_, ?_, ?_⟩
  · rw [hni, hnj]
    intro he
    exact class_name_ne i j hij (Option.some.inj he)
  · intro D dir can_open calls hdir hcalls
    have := SaveCalls_seq_no D dir can_open hdir calls (ProcessState.init files) 0 rfl
      (by omega)
    simpa using this
  · intro program k hk1
    refine ⟨rfl, rfl, ?_⟩
    rw [new_counter_succ program k hk1]
    push_cast
    rfl

/-- C24 at the first two conversion sessions of a process. -/
theorem C24_class_names_witness :
    (0 : Nat) ≠ 1
    ∧ 0 < [exampleProgram, exampleProgram].length
    ∧ 1 < [exampleProgram, exampleProgram].length
    ∧ [exampleProgram, exampleProgram].length ≤ 2 ^ 63
    ∧ ((runSessions [exampleProgram, exampleProgram]
          (ProcessState.init (fun _ => none)).seq_no).map (fun h => h.GetPyClassName))[0]?
        ≠ ((runSessions [exampleProgram, exampleProgram]
          (ProcessState.init (fun _ => none)).seq_no).map (fun h => h.GetPyClassName))[1]? :=
  ⟨by decide, by decide, by decide, by decide,
    (C24_class_names (fun _ => none) [exampleProgram, exampleProgram] 0 1 (by decide)
      (by decide) (by decide) (by decide)).2.2.2.2.1⟩

/-- C25: two conversion sessions with the same program and the same sequence number (and
the indent size the constructor always sets) return the same text: the text depends on the
program and the sequence number only. -/
theorem C25_convert_deterministic (D : Decls) (self1 self2 : PirToPyCodeConverterHelper)
    (hp : self1.program = self2.program) (hs : self1.seq_no = self2.seq_no)
    (hi : self1.indent_size = kDefaultIndentSize ∧ self2.indent_size = kDefaultIndentSize) :
    self1.Convert D = self2.Convert D
    ∧ (∀ (program : Program) (counter : Int),
        (PirToPyCodeConverterHelper.new program counter).1.program = program
        ∧ (PirToPyCodeConverterHelper.new program counter).1.seq_no = counter
        ∧ (PirToPyCodeConverterHelper.new program counter).1.indent_size
            = kDefaultIndentSize) := by
  refine ⟨?_, fun program counter => ⟨rfl, rfl, rfl⟩⟩
  cases self1 with
  | mk p1 n1 s1 =>
    cases self2 with
    | mk p2 n2 s2 =>
      simp only at hp hs hi
      rw [hp, hs, hi.1, hi.2]

/-- C25 at two sessions for the program of `C9.module_op` with the sequence number 3. -/
theorem C25_convert_deterministic_witness :
    (PirToPyCodeConverterHelper.new exampleProgram 3).1.program
        = (PirToPyCodeConverterHelper.new exampleProgram (2 + 1)).1.program
    ∧ (PirToPyCodeConverterHelper.new exampleProgram 3).1.seq_no
        = (PirToPyCodeConverterHelper.new exampleProgram (2 + 1)).1.seq_no
    ∧ (PirToPyCodeConverterHelper.new exampleProgram 3).1.Convert exampleDecls
        = (PirToPyCodeConverterHelper.new exampleProgram (2 + 1)).1.Convert exampleDecls :=
  ⟨rfl, by decide,
    (C25_convert_deterministic exampleDecls
      (PirToPyCodeConverterHelper.new exampleProgram 3).1
      (PirToPyCodeConverterHelper.new exampleProgram (2 + 1)).1 rfl (by decide)
      ⟨rfl, rfl⟩).1⟩
/-! ## Emission sink -/

theorem file_path_inj (dir tag1 tag2 : String)
    (h : dir ++ "/" ++ tag1 ++ ".py" = dir ++ "/" ++ tag2 ++ ".py") : tag1 = tag2 := by
  have hd := congrArg String.data h
  simp only [String.data_append, List.append_assoc] at hd
  have h1 := List.append_cancel_left (List.append_cancel_left hd)
  exact String.ext (List.append_cancel_right h1)

/-- A call with another tag leaves the file and its `once_flag` as they are. -/
theorem Save_other (D : Decls) (dir : String) (can_open : String → Bool) (tag other : String)
    (program : Program) (st : ProcessState) (hne : other ≠ tag) :
    (SaveIfFlagEnabled D dir can_open other program st).files (dir ++ "/" ++ tag ++ ".py")
        = st.files (dir ++ "/" ++ tag ++ ".py")
    ∧ (dir ++ "/" ++ tag ++ ".py" ∈ (SaveIfFlagEnabled D dir can_open other program st).once_flags
        ↔ dir ++ "/" ++ tag ++ ".py" ∈ st.once_flags) := by
  have hp : dir ++ "/" ++ tag ++ ".py" ≠ dir ++ "/" ++ other ++ ".py" :=
    fun e => hne (file_path_inj dir tag other e).symm
  unfold SaveIfFlagEnabled
  by_cases hdir : dir = ""
  · simp only [hdir, if_true, and_self]
  · simp only [hdir, if_false]
    by_cases hin : dir ++ "/" ++ other ++ ".py" ∈ st.once_flags <;>
      by_cases hopen : can_open (dir ++ "/" ++ other ++ ".py") = true <;>
      simp [hin, hopen, hp]

/-- The first call for a path that can be opened truncates the file and appends its block. -/
theorem Save_first (D : Decls) (dir : String) (can_open : String → Bool) (tag : String)
    (program : Program) (st : ProcessState) (hdir : dir ≠ "")
    (hopen : can_open (dir ++ "/" ++ tag ++ ".py") = true)
    (hfresh : dir ++ "/" ++ tag ++ ".py" ∉ st.once_flags) :
    (SaveIfFlagEnabled D dir can_open tag program st).files (dir ++ "/" ++ tag ++ ".py")
        = some ((PirToPyCodeConverterHelper.new program st.seq_no).1.Convert D ++ "\n")
    ∧ dir ++ "/" ++ tag ++ ".py" ∈ (SaveIfFlagEnabled D dir can_open tag program st).once_flags := by
  simp [SaveIfFlagEnabled, hdir, hopen, hfresh]

/-- A later call for a path that can be opened appends its block without truncating. -/
theorem Save_later (D : Decls) (dir : String) (can_open : String → Bool) (tag : String)
    (program : Program) (st : ProcessState) (hdir : dir ≠ "")
    (hopen : can_open (dir ++ "/" ++ tag ++ ".py") = true)
    (hin : dir ++ "/" ++ tag ++ ".py" ∈ st.once_flags) :
    (SaveIfFlagEnabled D dir can_open tag program st).files (dir ++ "/" ++ tag ++ ".py")
        = some ((st.files (dir ++ "/" ++ tag ++ ".py")).getD ""
            ++ (PirToPyCodeConverterHelper.new program st.seq_no).1.Convert D ++ "\n")
    ∧ dir ++ "/" ++ tag ++ ".py" ∈ (SaveIfFlagEnabled D dir can_open tag program st).once_flags := by
  simp [SaveIfFlagEnabled, hdir, hopen, hin]

theorem SaveCalls_later (D : Decls) (dir : String) (can_open : String → Bool) (tag : String)
    (hdir : dir ≠ "") (hopen : can_open (dir ++ "/" ++ tag ++ ".py") = true)
    (calls : List (String × Program)) :
    ∀ (st : ProcessState) (s : String), dir ++ "/" ++ tag ++ ".py" ∈ st.once_flags →
      st.files (dir ++ "/" ++ tag ++ ".py") = some s →
      (SaveCalls D dir can_open calls st).files (dir ++ "/" ++ tag ++ ".py")
        = some (s ++ appendedBlocks D tag calls st.seq_no) := by
  induction calls with
  | nil =>
    intro st s _ hs
    simp [SaveCalls, appendedBlocks, hs]
  | cons c cs ih =>
    intro st s hin hs
    have hseq := Save_seq_no D dir can_open c.1 c.2 st hdir
    simp only [SaveCalls, List.foldl_cons] at ih ⊢
    by_cases hc : c.1 = tag
    · have h := Save_later D dir can_open tag c.2 st hdir hopen hin
      rw [← hc] at h
      rw [hc] at h
      have hfile : (SaveIfFlagEnabled D dir can_open c.1 c.2 st).files
          (dir ++ "/" ++ tag ++ ".py")
            = some (s ++ (PirToPyCodeConverterHelper.new c.2 st.seq_no).1.Convert D ++ "\n") := by
        rw [hc, h.1, hs]
        rfl
      have hflag : dir ++ "/" ++ tag ++ ".py"
          ∈ (SaveIfFlagEnabled D dir can_open c.1 c.2 st).once_flags := by
        rw [hc]; exact h.2
      rw [ih _ _ hflag hfile, hseq]
      simp only [appendedBlocks, hc, if_true, String.append_assoc]
    · have h := Save_other D dir can_open tag c.1 c.2 st hc
      rw [ih _ s (h.2.2 hin) (h.1.trans hs), hseq]
      simp only [appendedBlocks, hc, if_false, String.empty_append]

theorem SaveCalls_fresh (D : Decls) (dir : String) (can_open : String → Bool) (tag : String)
    (hdir : dir ≠ "") (hopen : can_open (dir ++ "/" ++ tag ++ ".py") = true)
    (calls : List (String × Program)) :
    ∀ (st : ProcessState), dir ++ "/" ++ tag ++ ".py" ∉ st.once_flags →
      (∃ c ∈ calls, c.1 = tag) →
      (SaveCalls D dir can_open calls st).files (dir ++ "/" ++ tag ++ ".py")
        = some (appendedBlocks D tag calls st.seq_no) := by
  induction calls with
  | nil =>
    intro st _ hex
    obtain ⟨c, hc, _⟩ := hex
    simp at hc
  | cons c cs ih =>
    intro st hfresh hex
    have hseq := Save_seq_no D dir can_open c.1 c.2 st hdir
    by_cases hc : c.1 = tag
    · have h := Save_first D dir can_open tag c.2 st hdir hopen hfresh
      have hl := SaveCalls_later D dir can_open tag hdir hopen cs
        (SaveIfFlagEnabled D dir can_open c.1 c.2 st) _ (by rw [hc]; exact h.2)
        (by rw [hc]; exact h.1)
      simp only [SaveCalls, List.foldl_cons] at hl ⊢
      rw [hl, hseq]
      simp only [appendedBlocks, hc, if_true, String.append_assoc]
    · have h := Save_other D dir can_open tag c.1 c.2 st hc
      have hex' : ∃ c' ∈ cs, c'.1 = tag := by
        obtain ⟨c', hc', ht⟩ := hex
        rcases List.mem_cons.1 hc' with e | e
        · rw [e] at ht; exact absurd ht hc
        · exact ⟨c', e, ht⟩
      have hi := ih (SaveIfFlagEnabled D dir can_open c.1 c.2 st)
        (fun e => hfresh (h.2.1 e)) hex'
      simp only [SaveCalls, List.foldl_cons] at hi ⊢
      rw [hi, hseq]
      simp only [appendedBlocks, hc, if_false, String.empty_append]

/-- After a call with a directory the `once_flag` of the path of the call has been passed. -/
theorem Save_flag (D : Decls) (dir : String) (can_open : String → Bool) (tag : String)
    (program : Program) (st : ProcessState) (hdir : dir ≠ "") :
    dir ++ "/" ++ tag ++ ".py" ∈ (SaveIfFlagEnabled D dir can_open tag program st).once_flags := by
  by_cases hin : dir ++ "/" ++ tag ++ ".py" ∈ st.once_flags <;>
    by_cases hopen : can_open (dir ++ "/" ++ tag ++ ".py") = true <;>
    simp [SaveIfFlagEnabled, hdir, hin, hopen]

/-- A call whose file cannot be opened leaves every file as it is. -/
theorem Save_fail (D : Decls) (dir : String) (can_open : String → Bool) (tag : String)
    (program : Program) (st : ProcessState)
    (hopen : can_open (dir ++ "/" ++ tag ++ ".py") = false) :
    (SaveIfFlagEnabled D dir can_open tag program st).files = st.files := by
  by_cases hdir : dir = ""
  · simp [SaveIfFlagEnabled, hdir]
  · by_cases hin : dir ++ "/" ++ tag ++ ".py" ∈ st.once_flags <;>
      simp [SaveIfFlagEnabled, hdir, hin, hopen]

/-- A sequence of calls leaves a file that cannot be opened as it is. -/
theorem SaveCalls_fail (D : Decls) (dir : String) (can_open : String → Bool) (tag : String)
    (hopen : can_open (dir ++ "/" ++ tag ++ ".py") = false)
    (calls : List (String × Program)) :
    ∀ (st : ProcessState),
      (SaveCalls D dir can_open calls st).files (dir ++ "/" ++ tag ++ ".py")
        = st.files (dir ++ "/" ++ tag ++ ".py") := by
  induction calls with
  | nil => intro st; rfl
  | cons c cs ih =>
    intro st
    simp only [SaveCalls, List.foldl_cons] at ih ⊢
    rw [ih]
    by_cases hc : c.1 = tag
    · rw [hc, Save_fail D dir can_open tag c.2 st hopen]
    · exact (Save_other D dir can_open tag c.1 c.2 st hc).1

/-- C26 (as stated, refuted): when the file cannot be opened, a call with a non-empty
directory appends nothing: the file still does not exist after the call. -/
theorem C26_counterexample :
    (SaveIfFlagEnabled exampleDecls "/tmp/dump" (fun _ => false) "pass" exampleProgram
        (ProcessState.init (fun _ => none))).files "/tmp/dump/pass.py" = none
    ∧ (SaveIfFlagEnabled exampleDecls "/tmp/dump" (fun _ => false) "pass" exampleProgram
        (ProcessState.init (fun _ => none))).files "/tmp/dump/pass.py"
        ≠ some ((PirToPyCodeConverterHelper.new exampleProgram 0).1.Convert exampleDecls
            ++ "\n") := by
  have h : (SaveIfFlagEnabled exampleDecls "/tmp/dump" (fun _ => false) "pass" exampleProgram
      (ProcessState.init (fun _ => none))).files "/tmp/dump/pass.py" = none := by
    simp [SaveIfFlagEnabled, ProcessState.init]
  exact ⟨h, by rw [h]; exact fun e => Option.noConfusion e⟩

/-- C26 (amended): with a non-empty directory, when the file `<directory>/<tag>.py` can be
opened, the first call for the path truncates the file and appends its block, every later
call for the path appends its block to the content without truncating, and after a sequence
of calls from a state where the path has not been targeted the file holds exactly the blocks
of the calls with that tag, in call order; after any call the `once_flag` of its path has been
passed; when the file cannot be opened, a call writes nothing to any file and a sequence of
calls leaves the file as it is. -/
theorem C26_save_sequence (D : Decls) (dir tag : String) (can_open : String → Bool)
    (program : Program) (calls : List (String × Program)) (st : ProcessState)
    (hdir : dir ≠ "") :
    (can_open (dir ++ "/" ++ tag ++ ".py") = true → dir ++ "/" ++ tag ++ ".py" ∉ st.once_flags →
      (SaveIfFlagEnabled D dir can_open tag program st).files (dir ++ "/" ++ tag ++ ".py")
        = some ((PirToPyCodeConverterHelper.new program st.seq_no).1.Convert D ++ "\n"))
    ∧ (can_open (dir ++ "/" ++ tag ++ ".py") = true → dir ++ "/" ++ tag ++ ".py" ∈ st.once_flags →
      (SaveIfFlagEnabled D dir can_open tag program st).files (dir ++ "/" ++ tag ++ ".py")
        = some ((st.files (dir ++ "/" ++ tag ++ ".py")).getD ""
            ++ (PirToPyCodeConverterHelper.new program st.seq_no).1.Convert D ++ "\n"))
    ∧ dir ++ "/" ++ tag ++ ".py" ∈ (SaveIfFlagEnabled D dir can_open tag program st).once_flags
    ∧ (can_open (dir ++ "/" ++ tag ++ ".py") = true → dir ++ "/" ++ tag ++ ".py" ∉ st.once_flags →
      (∃ c ∈ calls, c.1 = tag) →
      (SaveCalls D dir can_open calls st).files (dir ++ "/" ++ tag ++ ".py")
        = some (appendedBlocks D tag calls st.seq_no))
    ∧ (can_open (dir ++ "/" ++ tag ++ ".py") = false →
      (SaveIfFlagEnabled D dir can_open tag program st).files = st.files)
    ∧ (can_open (dir ++ "/" ++ tag ++ ".py") = false →
      (SaveCalls D dir can_open calls st).files (dir ++ "/" ++ tag ++ ".py")
        = st.files (dir ++ "/" ++ tag ++ ".py")) :=
  ⟨fun hopen h => (Save_first D dir can_open tag program st hdir hopen h).1,
    fun hopen h => (Save_later D dir can_open tag program st hdir hopen h).1,
    Save_flag D dir can_open tag program st hdir,
    fun hopen h hex => SaveCalls_fresh D dir can_open tag hdir hopen calls st h hex,
    fun hopen => Save_fail D dir can_open tag program st hopen,
    fun hopen => SaveCalls_fail D dir can_open tag hopen calls st⟩

/-- C26 at three calls in a fresh process whose file `/tmp/dump/pass.py` held old text: the
file ends with the blocks of the two calls with the tag `pass`; when no file can be opened,
a call leaves the files as they are. -/
theorem C26_save_sequence_witness :
    "/tmp/dump" ≠ ""
    ∧ (SaveCalls exampleDecls "/tmp/dump" (fun _ => true) C26.calls
        (ProcessState.init (fun _ => some "old"))).files ("/tmp/dump" ++ "/" ++ "pass" ++ ".py")
        = some (appendedBlocks exampleDecls "pass" C26.calls 0)
    ∧ (SaveIfFlagEnabled exampleDecls "/tmp/dump" (fun _ => false) "pass" exampleProgram
        (ProcessState.init (fun _ => some "old"))).files
        = (ProcessState.init (fun _ => some "old")).files :=
  ⟨by decide,
    (C26_save_sequence exampleDecls "/tmp/dump" "pass" (fun _ => true) exampleProgram C26.calls
      (ProcessState.init (fun _ => some "old")) (by decide)).2.2.2.1 rfl
      (by simp [ProcessState.init]) ⟨("pass", exampleProgram), by simp [C26.calls], rfl⟩,
    (C26_save_sequence exampleDecls "/tmp/dump" "pass" (fun _ => false) exampleProgram C26.calls
      (ProcessState.init (fun _ => some "old")) (by decide)).2.2.2.2.1 rfl⟩

/-- C27: with an empty directory `SaveIfFlagEnabled` returns the process state unchanged: no
file is truncated or written, no `once_flag` is passed and the counter is not advanced. -/
theorem C27_save_disabled (D : Decls) (can_open : String → Bool) (tag : String)
    (program : Program) (st : ProcessState) :
    SaveIfFlagEnabled D "" can_open tag program st = st
    ∧ (SaveIfFlagEnabled D "" can_open tag program st).files = st.files
    ∧ (SaveIfFlagEnabled D "" can_open tag program st).once_flags = st.once_flags
    ∧ (SaveIfFlagEnabled D "" can_open tag program st).seq_no = st.seq_no := by
  have h : SaveIfFlagEnabled D "" can_open tag program st = st := by
    simp only [SaveIfFlagEnabled, if_true]
  rw [h]
  exact ⟨rfl, rfl, rfl, rfl⟩
/-! ## Claims on the scan of `GetInputs`, block names and the inner declaration -/

theorem scan_fold_eq (P : Value → Prop) [DecidablePred P] (xs : List Value) :
    ∀ acc : List Value,
      xs.foldl (fun inputs input =>
        if P input then inputs else if input ∈ inputs then inputs else inputs ++ [input]) acc
      = acc ++ (keepFirst (xs.filter (fun v => decide (¬ P v)))).filter
          (fun v => decide (v ∉ acc)) := by
  induction xs with
  | nil => intro acc; simp [keepFirst]
  | cons x xs ih =>
    intro acc
    simp only [List.foldl_cons]
    by_cases hP : P x
    · simp only [hP, if_true, ih, List.filter_cons, not_true_eq_false, decide_False,
        Bool.false_eq_true, if_false]
    · by_cases hx : x ∈ acc
      · simp only [hP, hx, if_true, if_false, ih, List.filter_cons, not_false_eq_true,
          decide_True, keepFirst, not_true_eq_false, decide_False, Bool.false_eq_true,
          List.filter_filter]
        congr 1
        apply List.filter_congr
        intro v _
        by_cases hv : v ∈ acc
        · simp [hv]
        · have : v ≠ x := fun e => hv (e ▸ hx)
          simp [hv, this]
      · simp only [hP, hx, if_false, ih, List.filter_cons, not_false_eq_true, decide_True,
          keepFirst, if_true, List.filter_filter, List.append_assoc, List.singleton_append]
        congr 2
        apply List.filter_congr
        intro v _
        by_cases hv : v ∈ acc <;> by_cases hvx : v = x <;> simp [hv, hvx]

/-- The scan of `GetInputs` keeps the first occurrence of every operand source that is not
defined in the block. -/
theorem scanInputs_eq_keepFirst (P : Value → Prop) [DecidablePred P] (xs : List Value) :
    scanInputs P xs = keepFirst (xs.filter (fun v => decide (¬ P v))) := by
  have h := scan_fold_eq P xs []
  simp only [List.nil_append, List.not_mem_nil, not_false_eq_true, decide_True,
    List.filter_true] at h
  exact h

/-- C28: `GetInputs` is the scan of the operands of the direct member operations, in order,
that drops the results of the direct member operations and keeps the first occurrence of
every remaining value; it has no duplicate, holds no result of a direct member, and holds
every scanned operand that is not a result of a direct member, also when a nested operation
produces it. -/
theorem C28_get_inputs_scan (block : Block) :
    GetInputs block
        = keepFirst ((block.ops.flatMap Operation.operands).filter
            (fun v => decide (v ∉ block.ops.flatMap Operation.results)))
    ∧ (GetInputs block).Nodup
    ∧ (∀ v ∈ GetInputs block, ∀ op ∈ block.ops, v ∉ op.results)
    ∧ (∀ v ∈ block.ops.flatMap Operation.operands, (∀ op ∈ block.ops, v ∉ op.results) →
        v ∈ GetInputs block)
    ∧ GetInputs C28.block = [C28.producer.result 0]
    ∧ C28.producer.result 0 ∈ C28.block.nodesInside.flatMap Operation.results := by
  have hmem : ∀ v, v ∈ GetInputs block ↔
      v ∈ block.ops.flatMap Operation.operands ∧ v ∉ block.ops.flatMap Operation.results := by
    intro v
    rw [GetInputs_eq_scan, mem_scanInputs]
    rfl
  refine ⟨?_, ?_, ?_, ?_, by decide, by decide⟩
  · rw [GetInputs_eq_scan, scanInputs_eq_keepFirst]
    rfl
  · rw [GetInputs_eq_scan]
    exact scanInputs_nodup _ _
  · intro v hv op hop hres
    exact ((hmem v).1 hv).2 (List.mem_flatMap.2 ⟨op, hop, hres⟩)
  · intro v hv hno
    refine (hmem v).2 ⟨hv, ?_⟩
    intro hres
    obtain ⟨op, hop, hr⟩ := List.mem_flatMap.1 hres
    exact hno op hop hr

/-- C29 (the code at the failing input): block 10 of region 1 and block 0 of region 11 of
`C29.op` are different blocks whose functions both get the name `if_5_block110`. -/
theorem C29_block_name_collision :
    ((regionTuples C29.op).getD 1 []).getD 10 "" = "(self.if_5_block110,)"
    ∧ ((regionTuples C29.op).getD 11 []).getD 0 "" = "(self.if_5_block110,)"
    ∧ ((C29.op.regions.map (fun r => r.map (fun b => b.ops.length))).getD 1 []).getD 10 0 = 0
    ∧ ((C29.op.regions.map (fun r => r.map (fun b => b.ops.length))).getD 11 []).getD 0 0 = 1
    ∧ (ConvertRegions C29.op).defines.count (IString.str "def if_5_block110(self, call):")
        = 2 := by
  decide

theorem kwargs_values_eq (kwargs : List (String × Value)) :
    ∀ acc : List Value,
      kwargs.foldl (fun values kv => values ++ [kv.2]) acc = acc ++ kwargs.map (fun kv => kv.2) := by
  induction kwargs with
  | nil => intro acc; simp
  | cons kv kvs ih => intro acc; simp [ih]

/-- C30 (the code at the failing input): for a block without positional argument and with a
keyword argument the inner function is declared `def ret_lambda(, *, arg_7):`, the parameter
list beginning with a comma; so it is for every such block. -/
theorem C30_inner_declaration :
    (ConvertBlock C30.block "f").defines
        = [IString.str "def f(self, call):",
            Indent (IString.str "def ret_lambda(, *, arg_7):"),
            Indent (IString.str "return ret_lambda"),
            Indent (IString.str "")]
    ∧ (∀ (ops : List Operation) (kw : String × Value) (kwargs : List (String × Value))
        (func_op_name : String),
        Indent (IString.str ("def ret_lambda(" ++ ", *, "
            ++ ", ".intercalate ((kw :: kwargs).map (fun kv => ConvertValue kv.2)) ++ "):"))
          ∈ (ConvertBlock (Block.mk ops [] (kw :: kwargs)) func_op_name).defines) := by
  refine ⟨by decide, ?_⟩
  intro ops kw kwargs func_op_name
  rw [ConvertBlock_defines]
  have hk : ConvertKwargsToString (Block.mk ops [] (kw :: kwargs))
      = ", ".intercalate ((kw :: kwargs).map (fun kv => ConvertValue kv.2)) := by
    simp only [ConvertKwargsToString, Block.kwargs, kwargs_values_eq, List.nil_append,
      ConvertInputsAsArgs, StreamJoin_eq, String.empty_append, List.map_map,
      Function.comp_def]
  have hne : ", ".intercalate ((kw :: kwargs).map (fun kv => ConvertValue kv.2)) ≠ "" := by
    intro e
    have := (intercalate_map_eq_empty ", " (fun (kv : String × Value) => ConvertValue kv.2)
      (kw :: kwargs) (fun kv => ConvertValue_ne_empty kv.2)).1 e
    exact List.cons_ne_nil _ _ this
  have ha : ConvertInputsAsArgs (Block.mk ops [] (kw :: kwargs)).args = "" := by
    simp [ConvertInputsAsArgs, StreamJoin, Block.args]
  rw [hk, ha]
  simp only [hne, if_false, List.mem_append, List.mem_cons]
  right; right; left
  have h1 : "def " ++ "ret_lambda" ++ "(" = "def ret_lambda(" := by decide
  rw [h1]
  simp only [String.append_assoc, String.empty_append]

end PirToPy
